import Mathlib

/-!
Verification of the paper-trading core of the mudrex futures paper-trading SDK.

The development shallowly embeds the Python sources:

* `src/mudrex/paper/models.py`   — wallet, order, position data model;
* `src/mudrex/paper/engine.py`   — the `PaperTradingEngine` order/position logic;
* `src/mudrex/paper/sltp_monitor.py` — the stop-loss / take-profit trigger check;
* `src/mudrex/paper/funding.py`  — the funding-settlement schedule;
* `src/mudrex/paper/liquidation.py` — the margin-status / liquidation check.

Modelling conventions:

* Python `Decimal` values are modelled as exact rationals `ℚ`.  All the
  arithmetic the engine performs on the inputs used here is exact in
  `Decimal` as well (default 28-digit context), so `ℚ` is faithful.
* `datetime.utcnow()` is modelled by an explicit clock argument `now : ℕ`
  (seconds of UTC time); each engine call receives one clock value, standing
  for the (microsecond-close) wall-clock reads during that call.
* Python string ids (`uuid`-based) are modelled as `Nat` drawn from a
  counter `next_id`; only freshness/uniqueness of ids is relevant.
* A Python method that can raise returns `Except PaperError _` here; because
  the engine mutates itself in place before some raises, every operation
  returns the (possibly partially mutated) state *alongside* the
  `Except` result, exactly mirroring which mutations precede the raise.
* Python truthiness of an `Optional[Decimal]` field (`if order.price:`)
  is `false` for both `None` and `Decimal("0")`; `truthyQ` models this.
-/

namespace Mudrex

/-- Status of a paper order (models.py `PaperOrderStatus`). -/
inductive PaperOrderStatus
  | PENDING
  | FILLED
  | CANCELLED
  | EXPIRED
  | REJECTED
  deriving DecidableEq, Repr

/-- Status of a paper position (models.py `PaperPositionStatus`). -/
inductive PaperPositionStatus
  | OPEN
  | CLOSED
  deriving DecidableEq, Repr

/-- Reason for position closure (models.py `CloseReason`). -/
inductive CloseReason
  | MANUAL
  | STOPLOSS
  | TAKEPROFIT
  | LIQUIDATION
  deriving DecidableEq, Repr

/-- The exceptions of `src/mudrex/paper/exceptions.py`, plus the built-in
Python exceptions the code can raise (`ValueError` in
`PaperWallet.lock_margin` / `PaperPosition.partial_close`,
`decimal.DivisionByZero`/`InvalidOperation` on `Decimal` division by zero,
`AttributeError` on a missing attribute, `TypeError` on a call with an
unexpected keyword argument). -/
inductive PaperError
  | insufficientMargin (required available : ℚ)
  | invalidOrder (field value reason : String)
  | positionNotFound (position_id : Nat)
  | orderNotFound (order_id : Nat)
  | positionAlreadyClosed (position_id : Nat)
  | orderAlreadyFilled (order_id : Nat)
  | symbolNotFound (symbol : String)
  | priceFetchError (symbol : String)
  | valueError (msg : String)
  | decimalDivisionByZero
  | attributeError (attr : String)
  | typeError (msg : String)
  deriving DecidableEq, Repr

/-- Python truthiness of an `Optional[Decimal]`: `None` and `Decimal("0")`
are falsy, every other value is truthy. -/
def truthyQ : Option ℚ → Bool
  | none => false
  | some x => decide (x ≠ 0)

/-- Virtual wallet (models.py `PaperWallet`); timestamps dropped. -/
structure PaperWallet where
  balance : ℚ
  available : ℚ
  locked_margin : ℚ := 0
  unrealized_pnl : ℚ := 0
  realized_pnl : ℚ := 0
  total_fees_paid : ℚ := 0
  deriving DecidableEq, Repr

namespace PaperWallet

/-- `PaperWallet.lock_margin`: raises `ValueError` when `amount > available`. -/
def lock_margin (w : PaperWallet) (amount : ℚ) : Except PaperError PaperWallet :=
  if amount > w.available then
    .error (.valueError "Cannot lock")
  else
    .ok { w with available := w.available - amount,
                 locked_margin := w.locked_margin + amount }

/-- `PaperWallet.release_margin`. -/
def release_margin (w : PaperWallet) (amount : ℚ) : PaperWallet :=
  { w with locked_margin := w.locked_margin - amount,
           available := w.available + amount }

/-- `PaperWallet.realize_pnl`. -/
def realize_pnl (w : PaperWallet) (pnl released_margin : ℚ) : PaperWallet :=
  { w with realized_pnl := w.realized_pnl + pnl,
           locked_margin := w.locked_margin - released_margin,
           available := w.available + released_margin + pnl,
           balance := w.balance + pnl }

/-- `PaperWallet.deduct_fee`: note the absence of any non-negativity check on
the resulting `available`. -/
def deduct_fee (w : PaperWallet) (fee : ℚ) : PaperWallet :=
  { w with available := w.available - fee,
           balance := w.balance - fee,
           total_fees_paid := w.total_fees_paid + fee }

end PaperWallet

/-- Simulated order record (models.py `PaperOrder`).  `side` is a plain
string (`"LONG"`/`"SHORT"`) exactly as in the Python dataclass. -/
structure PaperOrder where
  order_id : Nat
  symbol : String
  side : String
  order_type : String
  quantity : ℚ
  leverage : Nat
  status : PaperOrderStatus
  price : Option ℚ := none
  filled_price : Option ℚ := none
  stoploss_price : Option ℚ := none
  takeprofit_price : Option ℚ := none
  reduce_only : Bool := false
  fee_paid : ℚ := 0
  margin_used : ℚ := 0
  created_at : ℕ := 0
  filled_at : Option ℕ := none
  cancelled_at : Option ℕ := none
  expires_at : Option ℕ := none
  position_id : Option Nat := none
  deriving DecidableEq, Repr

namespace PaperOrder

/-- `PaperOrder.fill`. -/
def fill (o : PaperOrder) (price : ℚ) (position_id : Option Nat) (now : ℕ) :
    PaperOrder :=
  { o with status := .FILLED, filled_price := some price,
           filled_at := some now, position_id := position_id }

/-- `PaperOrder.cancel`. -/
def cancel (o : PaperOrder) (now : ℕ) : PaperOrder :=
  { o with status := .CANCELLED, cancelled_at := some now }

end PaperOrder

/-- Simulated futures position (models.py `PaperPosition`).  `side` is a
plain string, as in the Python dataclass. -/
structure PaperPosition where
  position_id : Nat
  symbol : String
  side : String
  status : PaperPositionStatus
  quantity : ℚ
  entry_price : ℚ
  leverage : Nat
  margin : ℚ
  unrealized_pnl : ℚ := 0
  realized_pnl : ℚ := 0
  stoploss_price : Option ℚ := none
  takeprofit_price : Option ℚ := none
  liquidation_price : Option ℚ := none
  opened_at : ℕ := 0
  closed_at : Option ℕ := none
  close_reason : Option CloseReason := none
  exit_price : Option ℚ := none
  deriving DecidableEq, Repr

namespace PaperPosition

/-- `PaperPosition.calculate_unrealized_pnl`. -/
def calculate_unrealized_pnl (p : PaperPosition) (current_price : ℚ) : ℚ :=
  let price_diff := current_price - p.entry_price
  if p.side = "LONG" then price_diff * p.quantity else -price_diff * p.quantity

/-- `PaperPosition.update_pnl`. -/
def update_pnl (p : PaperPosition) (current_price : ℚ) : PaperPosition :=
  { p with unrealized_pnl := p.calculate_unrealized_pnl current_price }

/-- `PaperPosition.calculate_liquidation_price` (the simplified 90 %-of-margin
heuristic of models.py). -/
def calculate_liquidation_price (p : PaperPosition) : Option ℚ :=
  if p.quantity = 0 then none
  else
    let safety_factor : ℚ := 9 / 10
    let margin_per_unit := p.margin / p.quantity
    if p.side = "LONG" then some (p.entry_price - margin_per_unit * safety_factor)
    else some (p.entry_price + margin_per_unit * safety_factor)

/-- `PaperPosition.close`: returns the closed position and the realized PnL. -/
def close (p : PaperPosition) (exit_price : ℚ) (reason : CloseReason) (now : ℕ) :
    PaperPosition × ℚ :=
  let final_pnl := p.calculate_unrealized_pnl exit_price
  ({ p with status := .CLOSED, closed_at := some now, close_reason := some reason,
            exit_price := some exit_price, realized_pnl := final_pnl,
            unrealized_pnl := 0 },
   final_pnl)

/-- `PaperPosition.partial_close`: raises `ValueError` when asked to close
more than the position holds, and `Decimal` division raises when
`quantity` is zero (`ratio = close_quantity / self.quantity`). -/
def partial_close (p : PaperPosition) (close_quantity exit_price : ℚ) (now : ℕ) :
    Except PaperError (PaperPosition × ℚ) :=
  if close_quantity > p.quantity then .error (.valueError "Cannot close")
  else if p.quantity = 0 then .error .decimalDivisionByZero
  else
    let ratio := close_quantity / p.quantity
    let partial_pnl := p.calculate_unrealized_pnl exit_price * ratio
    let p' := { p with quantity := p.quantity - close_quantity,
                       margin := p.margin * (1 - ratio),
                       realized_pnl := p.realized_pnl + partial_pnl }
    let p' :=
      if p'.quantity = 0 then
        { p' with status := .CLOSED, closed_at := some now,
                  close_reason := some CloseReason.MANUAL,
                  exit_price := some exit_price }
      else p'
    .ok (p', partial_pnl)

end PaperPosition

/-- Append-only trade-history entry (models.py `TradeRecord`).  The Python
code stores `""` for a missing `order_id`/`position_id`; here `none`. -/
structure TradeRecord where
  trade_id : Nat
  order_id : Option Nat
  position_id : Option Nat
  symbol : String
  side : String
  action : String
  quantity : ℚ
  price : ℚ
  notional : ℚ
  fee : ℚ
  pnl : Option ℚ := none
  pnl_percent : Option ℚ := none
  executed_at : ℕ := 0
  deriving DecidableEq, Repr

/-- The price-feed contract the engine consumes (price_feed.py
`PriceFeedService` / `MockPriceFeedService`): `get_price` raises
`SymbolNotFoundError` or `PriceFetchError` for bad symbols/transient
failures (modelled by the `Except`), and the validators return
`(valid, error_message)` pairs. -/
structure PriceFeed where
  get_price : String → Except PaperError ℚ
  is_valid_symbol : String → Bool
  validate_quantity : String → ℚ → Bool × String
  validate_leverage : String → Nat → Bool × String

/-- `side.upper()` (ASCII uppercasing of the side argument). -/
def py_upper (s : String) : String := ⟨s.data.map Char.toUpper⟩

/-- `"SHORT" if side == "LONG" else "LONG"` — the engine's opposite-side
computation. -/
def opposite_side (side : String) : String :=
  if side = "LONG" then "SHORT" else "LONG"

/-- engine.py `LIMIT_ORDER_EXPIRY_HOURS = 24`. -/
def LIMIT_ORDER_EXPIRY_HOURS : ℕ := 24

/-- The `PaperTradingEngine`'s mutable state: wallet, the `orders` and
`positions` dicts (insertion-ordered, so lists keyed by id), trade history,
the `pending_orders` symbol → order-id-list map, and the id counter that
stands in for `uuid` generation. -/
structure EngineState where
  fee_rate : ℚ
  wallet : PaperWallet
  orders : List PaperOrder := []
  positions : List PaperPosition := []
  trade_history : List TradeRecord := []
  pending_orders : List (String × List Nat) := []
  next_id : ℕ := 0
  deriving Repr

/-- Draw a fresh id (models `generate_paper_id`: only freshness matters). -/
def EngineState.fresh (st : EngineState) : Nat × EngineState :=
  (st.next_id, { st with next_id := st.next_id + 1 })

/-- Insertion-ordered-dict assignment `d[key(a)] = a`: replace the entries
carrying the key, or append when the key is new. -/
def storeBy {α : Type} (key : α → Nat) (l : List α) (a : α) : List α :=
  if l.any fun x => decide (key x = key a) then
    l.map fun x => if key x = key a then a else x
  else l ++ [a]

/-- `self.orders[o.order_id] = o` on the insertion-ordered dict. -/
def storeOrder (os : List PaperOrder) (o : PaperOrder) : List PaperOrder :=
  storeBy (·.order_id) os o

/-- `self.orders.get(order_id)`. -/
def findOrder (os : List PaperOrder) (order_id : Nat) : Option PaperOrder :=
  os.find? fun o => decide (o.order_id = order_id)

/-- `self.positions[p.position_id] = p` on the insertion-ordered dict; also
models every in-place mutation of a position object aliased by the dict. -/
def storePosition (ps : List PaperPosition) (p : PaperPosition) : List PaperPosition :=
  storeBy (·.position_id) ps p

/-- `self.positions.get(position_id)`. -/
def findPosition (ps : List PaperPosition) (position_id : Nat) : Option PaperPosition :=
  ps.find? fun p => decide (p.position_id = position_id)

/-- `PaperTradingEngine._find_position`: first open position with the given
symbol and side, in dict insertion order. -/
def EngineState.find_position (st : EngineState) (symbol side : String) :
    Option PaperPosition :=
  st.positions.find? fun p =>
    decide (p.symbol = symbol) && decide (p.side = side) &&
      decide (p.status = .OPEN)

/-- `self.pending_orders.setdefault(symbol, []).append(order_id)` (engine.py
272-274). -/
def addPending (pending : List (String × List Nat)) (symbol : String) (oid : Nat) :
    List (String × List Nat) :=
  if pending.any fun e => decide (e.1 = symbol) then
    pending.map fun e => if e.1 = symbol then (e.1, e.2 ++ [oid]) else e
  else pending ++ [(symbol, [oid])]

/-- `self.pending_orders[symbol].remove(order_id)` guarded by membership
(engine.py 780-782); `List.erase` removes the first occurrence, as
`list.remove` does, and is the identity when absent. -/
def removePending (pending : List (String × List Nat)) (symbol : String) (oid : Nat) :
    List (String × List Nat) :=
  pending.map fun e => if e.1 = symbol then (e.1, e.2.erase oid) else e

/-- The `action_map` of `_close_position_internal`. -/
def action_of_reason : CloseReason → String
  | .MANUAL => "CLOSE"
  | .STOPLOSS => "SL_TRIGGERED"
  | .TAKEPROFIT => "TP_TRIGGERED"
  | .LIQUIDATION => "LIQUIDATION"

/-- `PaperTradingEngine._close_position_internal`.  The wallet and position
mutations precede the `TradeRecord` construction, whose `pnl_percent`
divides by `quantity * entry_price` when `entry_price` is truthy, raising
on a zero-quantity position — hence the error case keeps the mutated
state. -/
def close_position_internal (st : EngineState) (position : PaperPosition)
    (exit_price : ℚ) (reason : CloseReason) (now : ℕ) :
    EngineState × Except PaperError ℚ :=
  let pr := position.close exit_price reason now
  let p' := pr.1
  let pnl := pr.2
  let exit_notional := p'.quantity * exit_price
  let exit_fee := exit_notional * st.fee_rate
  let net_pnl := pnl - exit_fee
  let wallet := st.wallet.realize_pnl net_pnl p'.margin
  let wallet := { wallet with total_fees_paid := wallet.total_fees_paid + exit_fee }
  let st := { st with wallet := wallet, positions := storePosition st.positions p' }
  if p'.entry_price ≠ 0 ∧ p'.quantity = 0 then (st, .error .decimalDivisionByZero)
  else
    let pnl_percent : ℚ :=
      if p'.entry_price = 0 then 0 else pnl / (p'.quantity * p'.entry_price) * 100
    let ts := st.fresh
    let st := ts.2
    let trade : TradeRecord := {
      trade_id := ts.1, order_id := none, position_id := some p'.position_id,
      symbol := p'.symbol, side := p'.side, action := action_of_reason reason,
      quantity := p'.quantity, price := exit_price, notional := exit_notional,
      fee := exit_fee, pnl := some net_pnl, pnl_percent := some pnl_percent,
      executed_at := now }
    ({ st with trade_history := st.trade_history ++ [trade] }, .ok net_pnl)

/-- `PaperTradingEngine._create_position`. -/
def create_position (st : EngineState) (order : PaperOrder) (execution_price : ℚ)
    (now : ℕ) : EngineState × PaperPosition :=
  let ps := st.fresh
  let st := ps.2
  let position : PaperPosition := {
    position_id := ps.1, symbol := order.symbol, side := order.side,
    status := .OPEN, quantity := order.quantity, entry_price := execution_price,
    leverage := order.leverage, margin := order.margin_used, opened_at := now }
  ({ st with positions := st.positions ++ [position] }, position)

/-- `PaperTradingEngine._average_into_position`; `Decimal` division raises
when the combined quantity is zero. -/
def average_into_position (st : EngineState) (position : PaperPosition)
    (order : PaperOrder) (execution_price : ℚ) (now : ℕ) :
    EngineState × Except PaperError PaperPosition :=
  let old_notional := position.quantity * position.entry_price
  let new_notional := order.quantity * execution_price
  let new_quantity := position.quantity + order.quantity
  if new_quantity = 0 then (st, .error .decimalDivisionByZero)
  else
    let new_entry_price := (old_notional + new_notional) / new_quantity
    let p' := { position with quantity := new_quantity,
                              entry_price := new_entry_price,
                              margin := position.margin + order.margin_used }
    let p' := { p' with liquidation_price := p'.calculate_liquidation_price }
    ({ st with positions := storePosition st.positions p' }, .ok p')

/-- `PaperTradingEngine._net_positions`: the order-vs-opposite-position
netting step.  In the remainder branch the existing position is closed
*before* the remainder margin division, so a zero leverage leaves the close
committed (matching the Python exception point). -/
def net_positions (st : EngineState) (existing : PaperPosition)
    (order : PaperOrder) (execution_price : ℚ) (now : ℕ) :
    EngineState × Except PaperError (Option PaperPosition) :=
  if order.quantity = existing.quantity then
    match close_position_internal st existing execution_price .MANUAL now with
    | (st, .error e) => (st, .error e)
    | (st, .ok _) => (st, .ok none)
  else if order.quantity < existing.quantity then
    match existing.partial_close order.quantity execution_price now with
    | .error e => (st, .error e)
    | .ok (p', pnl) =>
      let st := { st with positions := storePosition st.positions p' }
      let released_margin := order.margin_used
      let wallet := st.wallet.release_margin released_margin
      let wallet := { wallet with balance := wallet.balance + pnl,
                                  available := wallet.available + pnl,
                                  realized_pnl := wallet.realized_pnl + pnl }
      ({ st with wallet := wallet }, .ok (some p'))
  else
    match close_position_internal st existing execution_price .MANUAL now with
    | (st, .error e) => (st, .error e)
    | (st, .ok _) =>
      if order.leverage = 0 then (st, .error .decimalDivisionByZero)
      else
        let remainder := order.quantity - existing.quantity
        let remainder_margin := (remainder * execution_price) / (order.leverage : ℚ)
        let ps := st.fresh
        let st := ps.2
        let new_position : PaperPosition := {
          position_id := ps.1, symbol := order.symbol, side := order.side,
          status := .OPEN, quantity := remainder, entry_price := execution_price,
          leverage := order.leverage, margin := remainder_margin, opened_at := now }
        ({ st with positions := st.positions ++ [new_position] },
         .ok (some new_position))

/-- `PaperTradingEngine._handle_position_for_order`, instrumented with a
ghost flag recording whether the netting step `_net_positions` was taken
(the flag changes no behaviour; it lets theorems quantify over runs in
which no netting occurred). -/
def handle_position_for_order (st : EngineState) (order : PaperOrder)
    (execution_price : ℚ) (now : ℕ) :
    EngineState × Except PaperError (Option PaperPosition) × Bool :=
  let existing := st.find_position order.symbol order.side
  let opposite := st.find_position order.symbol (opposite_side order.side)
  match existing, opposite with
  | none, none =>
    let sp := create_position st order execution_price now
    (sp.1, .ok (some sp.2), false)
  | some e, _ =>
    match average_into_position st e order execution_price now with
    | (st, .error err) => (st, .error err, false)
    | (st, .ok p) => (st, .ok (some p), false)
  | none, some o =>
    match net_positions st o order execution_price now with
    | (st, r) => (st, r, true)

/-- Lines 341-346 of `_execute_order`: copy the order's (truthy) SL/TP
prices onto the position and recompute its estimated liquidation price. -/
def apply_risk_prices (order : PaperOrder) (p : PaperPosition) : PaperPosition :=
  let p := if truthyQ order.stoploss_price then
      { p with stoploss_price := order.stoploss_price } else p
  let p := if truthyQ order.takeprofit_price then
      { p with takeprofit_price := order.takeprofit_price } else p
  { p with liquidation_price := p.calculate_liquidation_price }

/-- The tail of `PaperTradingEngine._execute_order` after margin/fee
handling (engine.py 334-366): set `fee_paid`/`margin_used`, create or
update the position, copy SL/TP onto it, recompute its liquidation price,
fill and store the order, and append the OPEN trade record. -/
def finish_execute_order (st : EngineState) (order : PaperOrder)
    (execution_price fee required_margin : ℚ) (now : ℕ) :
    EngineState × Except PaperError PaperOrder × Bool :=
  let order := { order with fee_paid := fee, margin_used := required_margin }
  match handle_position_for_order st order execution_price now with
  | (st, .error e, netted) => (st, .error e, netted)
  | (st, .ok positionOpt, netted) =>
    let positionOpt :=
      match positionOpt with
      | none => none
      | some p => some (apply_risk_prices order p)
    let st :=
      match positionOpt with
      | none => st
      | some p => { st with positions := storePosition st.positions p }
    let order := order.fill execution_price (positionOpt.map (·.position_id)) now
    let st := { st with orders := storeOrder st.orders order }
    let ts := st.fresh
    let st := ts.2
    let trade : TradeRecord := {
      trade_id := ts.1, order_id := some order.order_id,
      position_id := positionOpt.map (·.position_id),
      symbol := order.symbol, side := order.side, action := "OPEN",
      quantity := order.quantity, price := execution_price,
      notional := order.quantity * execution_price, fee := fee,
      executed_at := now }
    ({ st with trade_history := st.trade_history ++ [trade] }, .ok order, netted)

/-- `PaperTradingEngine._execute_order`.  `Decimal(order.leverage)` division
raises on zero leverage before any mutation.  The reduce-only early path
(engine.py 300-314) runs only for market orders whose same-side position
lookup is empty; with a same-side position present a reduce-only order
falls through to the ordinary margin-check-and-fill path. -/
def execute_order (st : EngineState) (order : PaperOrder) (execution_price : ℚ)
    (now : ℕ) : EngineState × Except PaperError PaperOrder × Bool :=
  let notional := order.quantity * execution_price
  if order.leverage = 0 then (st, .error .decimalDivisionByZero, false)
  else
    let required_margin := notional / (order.leverage : ℚ)
    let fee := notional * st.fee_rate
    if order.order_type = "MARKET" then
      let total_required := required_margin + fee
      if order.reduce_only && (st.find_position order.symbol order.side).isNone then
        match st.find_position order.symbol (opposite_side order.side) with
        | some position =>
          match close_position_internal st position execution_price .MANUAL now with
          | (st, .error e) => (st, .error e, false)
          | (st, .ok _) =>
            let order := order.fill execution_price (some position.position_id) now
            ({ st with orders := storeOrder st.orders order }, .ok order, false)
        | none =>
          (st, .error (.invalidOrder "reduce_only" "true" "No position to reduce"),
           false)
      else if st.wallet.available < total_required then
        let order := { order with status := .REJECTED }
        ({ st with orders := storeOrder st.orders order },
         .error (.insufficientMargin total_required st.wallet.available), false)
      else
        match st.wallet.lock_margin required_margin with
        | .error e => (st, .error e, false)
        | .ok w =>
          let st := { st with wallet := w.deduct_fee fee }
          finish_execute_order st order execution_price fee required_margin now
    else
      let st := { st with wallet := st.wallet.deduct_fee fee }
      finish_execute_order st order execution_price fee required_margin now

/-- `PaperTradingEngine.create_market_order`. -/
def create_market_order (feed : PriceFeed) (st : EngineState)
    (symbol side₀ : String) (quantity : ℚ) (leverage : Nat)
    (stoploss_price takeprofit_price : Option ℚ) (reduce_only : Bool) (now : ℕ) :
    EngineState × Except PaperError PaperOrder × Bool :=
  let side := py_upper side₀
  if ¬(side = "LONG" ∨ side = "SHORT") then
    (st, .error (.invalidOrder "side" side "Must be LONG or SHORT"), false)
  else
    match feed.get_price symbol with
    | .error e => (st, .error e, false)
    | .ok current_price =>
      match feed.validate_quantity symbol quantity with
      | (false, err) => (st, .error (.invalidOrder "quantity" "" err), false)
      | (true, _) =>
        match feed.validate_leverage symbol leverage with
        | (false, err) => (st, .error (.invalidOrder "leverage" "" err), false)
        | (true, _) =>
          let os := st.fresh
          let st := os.2
          let order : PaperOrder := {
            order_id := os.1, symbol := symbol, side := side,
            order_type := "MARKET", quantity := quantity, leverage := leverage,
            status := .PENDING, stoploss_price := stoploss_price,
            takeprofit_price := takeprofit_price, reduce_only := reduce_only,
            created_at := now }
          execute_order st order current_price now

/-- `PaperTradingEngine.create_limit_order`: margin (not the fee) is locked
up front after the `available < margin + fee` check; the order is stored
PENDING with `expires_at = now + 24h` and queued under its symbol. -/
def create_limit_order (feed : PriceFeed) (st : EngineState)
    (symbol side₀ : String) (quantity price : ℚ) (leverage : Nat)
    (stoploss_price takeprofit_price : Option ℚ) (reduce_only : Bool) (now : ℕ) :
    EngineState × Except PaperError PaperOrder :=
  let side := py_upper side₀
  if ¬(side = "LONG" ∨ side = "SHORT") then
    (st, .error (.invalidOrder "side" side "Must be LONG or SHORT"))
  else if ¬feed.is_valid_symbol symbol then
    (st, .error (.symbolNotFound symbol))
  else
    match feed.validate_quantity symbol quantity with
    | (false, err) => (st, .error (.invalidOrder "quantity" "" err))
    | (true, _) =>
      match feed.validate_leverage symbol leverage with
      | (false, err) => (st, .error (.invalidOrder "leverage" "" err))
      | (true, _) =>
        let notional := quantity * price
        if leverage = 0 then (st, .error .decimalDivisionByZero)
        else
          let required_margin := notional / (leverage : ℚ)
          let fee := notional * st.fee_rate
          let total_required := required_margin + fee
          if st.wallet.available < total_required then
            (st, .error (.insufficientMargin total_required st.wallet.available))
          else
            let os := st.fresh
            let st := os.2
            let order : PaperOrder := {
              order_id := os.1, symbol := symbol, side := side,
              order_type := "LIMIT", quantity := quantity, price := some price,
              leverage := leverage, status := .PENDING,
              stoploss_price := stoploss_price,
              takeprofit_price := takeprofit_price, reduce_only := reduce_only,
              margin_used := required_margin, created_at := now,
              expires_at := some (now + LIMIT_ORDER_EXPIRY_HOURS * 3600) }
            match st.wallet.lock_margin required_margin with
            | .error e => (st, .error e)
            | .ok w =>
              let st := { st with wallet := w,
                                  orders := storeOrder st.orders order }
              let st := { st with
                pending_orders := addPending st.pending_orders symbol os.1 }
              (st, .ok order)

/-- `PaperTradingEngine.get_position`: raises `PositionNotFound` for an
unknown id and refreshes the unrealized PnL of an open position (price-feed
failures swallowed, engine.py 556-562). -/
def get_position (feed : PriceFeed) (st : EngineState) (position_id : Nat) :
    EngineState × Except PaperError PaperPosition :=
  match findPosition st.positions position_id with
  | none => (st, .error (.positionNotFound position_id))
  | some position =>
    if position.status = .OPEN then
      match feed.get_price position.symbol with
      | .ok current_price =>
        let p' := position.update_pnl current_price
        ({ st with positions := storePosition st.positions p' }, .ok p')
      | .error _ => (st, .ok position)
    else (st, .ok position)

/-- `PaperTradingEngine.close_position` (full or partial close).  In the
partial branch, `partial_close` runs first; then `ratio` is recomputed from
the already-reduced position (`quantity / (position.quantity + quantity)`),
the released margin is `margin * ratio / (1 - ratio)`, PnL is realized, and
a PARTIAL_CLOSE trade is recorded, whose `pnl_percent` division raises when
`quantity * entry_price` is zero (after the wallet mutation). -/
def close_position (feed : PriceFeed) (st : EngineState) (position_id : Nat)
    (quantity : Option ℚ) (now : ℕ) :
    EngineState × Except PaperError PaperPosition :=
  match get_position feed st position_id with
  | (st, .error e) => (st, .error e)
  | (st, .ok position) =>
    if position.status ≠ .OPEN then
      (st, .error (.positionAlreadyClosed position_id))
    else
      match feed.get_price position.symbol with
      | .error e => (st, .error e)
      | .ok current_price =>
        let doFull := fun (st : EngineState) =>
          match close_position_internal st position current_price .MANUAL now with
          | (st, .error e) => (st, .error e)
          | (st, .ok _) =>
            match findPosition st.positions position_id with
            | some p => (st, .ok p)
            | none => (st, .error (.positionNotFound position_id))
        match quantity with
        | none => doFull st
        | some q =>
          if q ≥ position.quantity then doFull st
          else
            match position.partial_close q current_price now with
            | .error e => (st, .error e)
            | .ok (p', pnl) =>
              let st := { st with positions := storePosition st.positions p' }
              if p'.quantity + q = 0 then (st, .error .decimalDivisionByZero)
              else
                let ratio := q / (p'.quantity + q)
                if ratio = 1 then (st, .error .decimalDivisionByZero)
                else
                  let released_margin := p'.margin * ratio / (1 - ratio)
                  let st := { st with
                    wallet := st.wallet.realize_pnl pnl released_margin }
                  if q * position.entry_price = 0 then
                    (st, .error .decimalDivisionByZero)
                  else
                    let ts := st.fresh
                    let st := ts.2
                    let trade : TradeRecord := {
                      trade_id := ts.1, order_id := none,
                      position_id := some position_id, symbol := position.symbol,
                      side := position.side, action := "PARTIAL_CLOSE",
                      quantity := q, price := current_price,
                      notional := q * current_price, fee := 0, pnl := some pnl,
                      pnl_percent := some (pnl / (q * position.entry_price) * 100),
                      executed_at := now }
                    ({ st with trade_history := st.trade_history ++ [trade] },
                     .ok p')

/-- `PaperTradingEngine.cancel_order`. -/
def cancel_order (st : EngineState) (order_id : Nat) (now : ℕ) :
    EngineState × Except PaperError Bool :=
  match findOrder st.orders order_id with
  | none => (st, .error (.orderNotFound order_id))
  | some order =>
    if order.status = .FILLED then (st, .error (.orderAlreadyFilled order_id))
    else if order.status ≠ .PENDING then (st, .ok false)
    else
      let o := order.cancel now
      let st := { st with orders := storeOrder st.orders o }
      let st :=
        if order.margin_used > 0 then
          { st with wallet := st.wallet.release_margin order.margin_used }
        else st
      let st := { st with
        pending_orders := removePending st.pending_orders order.symbol order_id }
      (st, .ok true)

/-- The fill condition of `check_limit_orders` for a pending order whose
limit `price` is `some p`: Python's `if order.side == "LONG" and
order.price:` makes a zero limit price falsy, so no branch assigns
`should_fill`. -/
def limit_should_fill (side : String) (p current_price : ℚ) : Bool :=
  if p = 0 then false
  else if side = "LONG" then decide (current_price ≤ p)
  else if side = "SHORT" then decide (current_price ≥ p)
  else false

/-- Result of scanning one symbol's pending-order list in
`check_limit_orders`: the threaded state, the surviving id list, the newly
filled orders, the netting ghost flag, and an uncaught exception from
`_execute_order` if one occurred. -/
structure LimitScan where
  st : EngineState
  remaining : List Nat
  filled : List PaperOrder
  netted : Bool
  err : Option PaperError

/-- The inner loop of `check_limit_orders` (engine.py 809-834): iterate the
snapshot of a symbol's id list; skip stale / non-PENDING ids; expire orders
past `expires_at` (release margin, drop id); otherwise fill when the limit
price is reached, executing at the limit price. An exception from
`_execute_order` propagates, leaving the id in place. -/
def check_orders_for_symbol (st : EngineState) (current_price : ℚ)
    (ids remaining : List Nat) (filled : List PaperOrder) (netted : Bool)
    (now : ℕ) : LimitScan :=
  match ids with
  | [] => ⟨st, remaining, filled, netted, none⟩
  | oid :: rest =>
    match findOrder st.orders oid with
    | none => check_orders_for_symbol st current_price rest remaining filled netted now
    | some order =>
      if order.status ≠ .PENDING then
        check_orders_for_symbol st current_price rest remaining filled netted now
      else if (match order.expires_at with
               | some exp => decide (now > exp)
               | none => false) then
        let o := { order with status := .EXPIRED }
        let st := { st with orders := storeOrder st.orders o,
                            wallet := st.wallet.release_margin order.margin_used }
        check_orders_for_symbol st current_price rest (remaining.erase oid) filled
          netted now
      else
        match order.price with
        | none => check_orders_for_symbol st current_price rest remaining filled netted now
        | some p =>
          if limit_should_fill order.side p current_price then
            match execute_order st order p now with
            | (st, .error e, n) => ⟨st, remaining, filled, netted || n, some e⟩
            | (st, .ok o, n) =>
              check_orders_for_symbol st current_price rest (remaining.erase oid)
                (filled ++ [o]) (netted || n) now
          else
            check_orders_for_symbol st current_price rest remaining filled netted now

/-- The outer loop of `check_limit_orders` over
`list(self.pending_orders.items())`: empty lists and symbols whose price
fetch fails are skipped (`continue`); an exception from an inner fill
propagates with the remaining symbols untouched. -/
def check_limit_orders_go (feed : PriceFeed) (st : EngineState)
    (entries acc : List (String × List Nat)) (filled : List PaperOrder)
    (netted : Bool) (now : ℕ) :
    EngineState × List PaperOrder × Bool × Option PaperError :=
  match entries with
  | [] => ({ st with pending_orders := acc }, filled, netted, none)
  | (symbol, ids) :: rest =>
    if ids.isEmpty then
      check_limit_orders_go feed st rest (acc ++ [(symbol, ids)]) filled netted now
    else
      match feed.get_price symbol with
      | .error _ =>
        check_limit_orders_go feed st rest (acc ++ [(symbol, ids)]) filled netted now
      | .ok current_price =>
        match check_orders_for_symbol st current_price ids ids [] false now with
        | ⟨st, remaining, newly, n, some e⟩ =>
          ({ st with pending_orders := acc ++ [(symbol, remaining)] ++ rest },
           filled ++ newly, netted || n, some e)
        | ⟨st, remaining, newly, n, none⟩ =>
          check_limit_orders_go feed st rest (acc ++ [(symbol, remaining)])
            (filled ++ newly) (netted || n) now

/-- `PaperTradingEngine.check_limit_orders`: the periodic fill/expiry check
over all pending limit orders. -/
def check_limit_orders (feed : PriceFeed) (st : EngineState) (now : ℕ) :
    EngineState × List PaperOrder × Bool × Option PaperError :=
  check_limit_orders_go feed st st.pending_orders [] [] false now

/-- One foreground engine operation, with the wall-clock second at which it
runs.  These are the operations the invariant claims quantify over. -/
inductive EngineOp
  | market (symbol side : String) (quantity : ℚ) (leverage : Nat)
      (stoploss_price takeprofit_price : Option ℚ) (reduce_only : Bool) (now : ℕ)
  | limit (symbol side : String) (quantity price : ℚ) (leverage : Nat)
      (stoploss_price takeprofit_price : Option ℚ) (reduce_only : Bool) (now : ℕ)
  | checkLimits (now : ℕ)
  | cancel (order_id : Nat) (now : ℕ)
  | closePos (position_id : Nat) (quantity : Option ℚ) (now : ℕ)

/-- Apply one operation; the `Bool` is the netting ghost flag of
`handle_position_for_order` (true when `_net_positions` ran). -/
def step (feed : PriceFeed) (st : EngineState) : EngineOp → EngineState × Bool
  | .market symbol side q lev sl tp ro now =>
    match create_market_order feed st symbol side q lev sl tp ro now with
    | (st, _, netted) => (st, netted)
  | .limit symbol side q p lev sl tp ro now =>
    ((create_limit_order feed st symbol side q p lev sl tp ro now).1, false)
  | .checkLimits now =>
    match check_limit_orders feed st now with
    | (st, _, netted, _) => (st, netted)
  | .cancel oid now => ((cancel_order st oid now).1, false)
  | .closePos pid q now => ((close_position feed st pid q now).1, false)

/-- Run a sequence of operations, each against the price feed as it stands
when that operation runs (live prices move between calls); the flag records
whether any step netted. -/
def run (st : EngineState) : List (PriceFeed × EngineOp) → EngineState × Bool
  | [] => (st, false)
  | fo :: rest =>
    let sn := step fo.1 st fo.2
    let sn' := run sn.1 rest
    (sn'.1, sn.2 || sn'.2)

/-- Engine construction (`PaperTradingEngine.__init__`): note
`self.fee_rate = fee_rate or DEFAULT_FEE_RATE`, so a zero (or absent)
`fee_rate` falls back to the 0.05 % default. -/
def init_engine (initial_balance : ℚ) (fee_rate : Option ℚ) : EngineState :=
  { fee_rate := if truthyQ fee_rate then fee_rate.getD 0 else 5 / 10000,
    wallet := { balance := initial_balance, available := initial_balance } }

/-- A price feed with one fixed price for every symbol and permissive
validators, used to drive concrete runs (any `PriceFeed` is admissible for
the universally-quantified theorems). -/
def const_feed (price : ℚ) : PriceFeed :=
  { get_price := fun _ => .ok price,
    is_valid_symbol := fun _ => true,
    validate_quantity := fun _ _ => (true, ""),
    validate_leverage := fun _ _ => (true, "") }

/-! ### SL/TP monitor (sltp_monitor.py) -/

/-- `SLTPMonitor._trigger_takeprofit`: calls the engine's
`_close_position_internal` with reason TAKEPROFIT inside a `try`/`except`
that only logs, so any exception leaves whatever mutations already
happened in place. -/
def trigger_takeprofit (st : EngineState) (position : PaperPosition)
    (price : ℚ) (now : ℕ) : EngineState :=
  (close_position_internal st position price .TAKEPROFIT now).1

/-- `SLTPMonitor._trigger_stoploss`, likewise with reason STOPLOSS. -/
def trigger_stoploss (st : EngineState) (position : PaperPosition)
    (price : ℚ) (now : ℕ) : EngineState :=
  (close_position_internal st position price .STOPLOSS now).1

/-- The stop-loss half of `SLTPMonitor._check_position_triggers`:
`if position.stoploss_price:` is Python truthiness, so a `None` or zero
stop-loss price is never evaluated. -/
def check_stoploss_trigger (st : EngineState) (position : PaperPosition)
    (current_price : ℚ) (now : ℕ) : EngineState × Bool :=
  if truthyQ position.stoploss_price then
    let sl := position.stoploss_price.getD 0
    if position.side = "LONG" ∧ current_price ≤ sl then
      (trigger_stoploss st position current_price now, true)
    else if position.side = "SHORT" ∧ current_price ≥ sl then
      (trigger_stoploss st position current_price now, true)
    else (st, false)
  else (st, false)

/-- `SLTPMonitor._check_position_triggers`: take-profit is checked first
(its guard `if position.takeprofit_price:` is Python truthiness, so a
`None` or zero take-profit price skips straight to the stop-loss check);
returns the engine state and whether a trigger fired. -/
def check_position_triggers (st : EngineState) (position : PaperPosition)
    (current_price : ℚ) (now : ℕ) : EngineState × Bool :=
  if truthyQ position.takeprofit_price then
    let tp := position.takeprofit_price.getD 0
    if position.side = "LONG" ∧ current_price ≥ tp then
      (trigger_takeprofit st position current_price now, true)
    else if position.side = "SHORT" ∧ current_price ≤ tp then
      (trigger_takeprofit st position current_price now, true)
    else check_stoploss_trigger st position current_price now
  else check_stoploss_trigger st position current_price now

/-! ### Funding monitor (funding.py) -/

/-- Attribute lookup `side.value` on a position coming from the engine:
`PaperPosition.side` is a plain Python `str`, which has no attribute
`value` (the monitors were written against an enum-valued side), so the
lookup raises `AttributeError`. -/
def str_value_attr (_side : String) : Except PaperError String :=
  .error (.attributeError "value")

/-- Attribute lookup `self._engine._wallet`: `PaperTradingEngine` exposes
`wallet`; `_wallet` does not exist, so the access raises
`AttributeError`. -/
def engine_underscore_wallet (_st : EngineState) : Except PaperError PaperWallet :=
  .error (.attributeError "_wallet")

/-- Attribute lookup `self._engine._positions`: the engine exposes
`positions`; `_positions` does not exist, so the access raises
`AttributeError`. -/
def engine_underscore_positions (_st : EngineState) :
    Except PaperError (List PaperPosition) :=
  .error (.attributeError "_positions")

/-- funding.py `FUNDING_HOURS = [0, 8, 16]`. -/
def FUNDING_HOURS : List ℕ := [0, 8, 16]

/-- `start.replace(hour=0, minute=0, second=0, microsecond=0)` on a UTC
time measured in seconds. -/
def day_start (t : ℕ) : ℕ := t / 86400 * 86400

/-- The `while current <= end` loop of
`FundingMonitor._get_funding_times_between`: per day, the funding hours
that fall strictly after `s` and at or before `e`; days and hours ascend,
so the final `sorted(...)` is the identity. -/
def get_funding_times_go (s e current : ℕ) : List ℕ :=
  if h : current ≤ e then
    (FUNDING_HOURS.filterMap fun hour =>
      let ft := current + hour * 3600
      if s < ft ∧ ft ≤ e then some ft else none) ++
      get_funding_times_go s e (current + 86400)
  else []
termination_by e + 86400 - current
decreasing_by omega

/-- `FundingMonitor._get_funding_times_between`. -/
def get_funding_times_between (s e : ℕ) : List ℕ :=
  get_funding_times_go s e (day_start s)

/-- Record of a funding payment (funding.py `FundingPayment`). -/
structure FundingPayment where
  position_id : Nat
  symbol : String
  side : String
  funding_rate : ℚ
  position_value : ℚ
  payment_amount : ℚ
  payment_time : ℕ
  mark_price : ℚ
  quantity : ℚ
  deriving DecidableEq, Repr

/-- `FundingMonitor._calculate_funding_payment`: the direction split reads
`position.side.value`, which raises `AttributeError` for the engine's
string-sided positions; everything after that line is dead code for them,
retained faithfully. -/
def calculate_funding_payment (position : PaperPosition)
    (funding_rate mark_price : ℚ) (funding_time : ℕ) :
    Except PaperError FundingPayment := do
  let position_value := position.quantity * mark_price
  let raw_payment := position_value * funding_rate
  let side_value ← str_value_attr position.side
  let is_long := side_value = "LONG"
  let payment_amount :=
    if funding_rate > 0 then
      if is_long then -raw_payment else raw_payment
    else
      if is_long then raw_payment else -raw_payment
  return { position_id := position.position_id, symbol := position.symbol,
           side := side_value, funding_rate := funding_rate,
           position_value := position_value, payment_amount := payment_amount,
           payment_time := funding_time, mark_price := mark_price,
           quantity := position.quantity }

/-- The monitor's bookkeeping: last settled funding time per position and
the payment history. -/
structure FundingState where
  last_funding_time : List (Nat × ℕ) := []
  payments : List FundingPayment := []
  deriving Repr

/-- `self._last_funding_time.get(position_id)`. -/
def lookupLast (m : List (Nat × ℕ)) (position_id : Nat) : Option ℕ :=
  (m.find? fun e => decide (e.1 = position_id)).map (·.2)

/-- `self._last_funding_time[position_id] = t`. -/
def setLast (m : List (Nat × ℕ)) (position_id : Nat) (t : ℕ) : List (Nat × ℕ) :=
  if m.any fun e => decide (e.1 = position_id) then
    m.map fun e => if e.1 = position_id then (e.1, t) else e
  else m ++ [(position_id, t)]

/-- `FundingMonitor._apply_funding_payment`: starts by writing
`self._engine._wallet.balance`, which raises `AttributeError` (the engine's
attribute is `wallet`), so no payment is ever recorded; the rest is
retained faithfully (it would scan `engine._positions`, also missing). -/
def apply_funding_payment (st : EngineState) (fs : FundingState)
    (payment : FundingPayment) : Except PaperError (EngineState × FundingState) := do
  let w ← engine_underscore_wallet st
  let w := { w with balance := w.balance + payment.payment_amount }
  let _ ← engine_underscore_positions st
  return ({ st with wallet := w },
          { fs with payments := fs.payments ++ [payment] })

/-- The `for funding_time in funding_times` loop of
`FundingMonitor._process_position_funding`: boundaries at or before the
last processed time are skipped; a failing `get_funding_info` is logged and
skipped; an exception out of the payment calculation or application
propagates (the surrounding per-position handler in `_process_funding`
merely logs it), leaving engine and funding state as they were. -/
def process_position_funding_go
    (get_funding_info : String → Except PaperError (ℚ × ℚ))
    (st : EngineState) (fs : FundingState) (position : PaperPosition)
    (last_processed : Option ℕ) :
    List ℕ → (EngineState × FundingState) × Except PaperError Unit
  | [] => ((st, fs), .ok ())
  | funding_time :: rest =>
    if (match last_processed with
        | some lp => decide (funding_time ≤ lp)
        | none => false) then
      process_position_funding_go get_funding_info st fs position last_processed rest
    else
      match get_funding_info position.symbol with
      | .error _ =>
        process_position_funding_go get_funding_info st fs position last_processed rest
      | .ok info =>
        match calculate_funding_payment position info.1 info.2 funding_time with
        | .error e => ((st, fs), .error e)
        | .ok payment =>
          match apply_funding_payment st fs payment with
          | .error e => ((st, fs), .error e)
          | .ok sf =>
            let fs₂ := sf.2
            let fs' := { fs₂ with
              last_funding_time :=
                setLast fs₂.last_funding_time position.position_id funding_time }
            process_position_funding_go get_funding_info sf.1 fs' position
              last_processed rest

/-- `FundingMonitor._process_position_funding` for one position: determine
the elapsed funding boundaries since the position opened or was last
settled, then process each in order. -/
def process_position_funding
    (get_funding_info : String → Except PaperError (ℚ × ℚ))
    (st : EngineState) (fs : FundingState) (position : PaperPosition)
    (now : ℕ) : (EngineState × FundingState) × Except PaperError Unit :=
  let last_processed := lookupLast fs.last_funding_time position.position_id
  let start_time := last_processed.getD position.opened_at
  let funding_times := get_funding_times_between start_time now
  if funding_times.isEmpty then ((st, fs), .ok ())
  else
    process_position_funding_go get_funding_info st fs position last_processed
      funding_times

/-! ### Liquidation engine (liquidation.py) -/

/-- `Decimal.quantize(Decimal("0.01"))`: round to two decimal places with
the default ROUND_HALF_EVEN. -/
def round_half_even (y : ℚ) : ℤ :=
  if y - ⌊y⌋ = 1 / 2 then (if ⌊y⌋ % 2 = 0 then ⌊y⌋ else ⌊y⌋ + 1) else round y

/-- Two-decimal-place quantization used by the liquidation-price formula. -/
def quantize2 (x : ℚ) : ℚ := (round_half_even (x * 100) : ℚ) / 100

/-- `LiquidationEngine.calculate_liquidation_price` (isolated-margin
formula, quantized to cents); `Decimal` division raises on zero
leverage. -/
def liq_calculate_liquidation_price (mmr entry_price : ℚ) (leverage : Nat)
    (side : String) : Except PaperError ℚ :=
  if leverage = 0 then .error .decimalDivisionByZero
  else
    let leverage_factor := 1 / (leverage : ℚ)
    let liq_price :=
      if side = "LONG" then entry_price * (1 - leverage_factor + mmr)
      else entry_price * (1 + leverage_factor - mmr)
    .ok (quantize2 liq_price)

/-- Current margin status of a position (liquidation.py `MarginStatus`). -/
structure MarginStatus where
  position_id : Nat
  symbol : String
  side : String
  entry_price : ℚ
  mark_price : ℚ
  quantity : ℚ
  leverage : Nat
  initial_margin : ℚ
  maintenance_margin : ℚ
  unrealized_pnl : ℚ
  margin_balance : ℚ
  margin_ratio : ℚ
  liquidation_price : ℚ
  is_at_risk : Bool
  is_liquidatable : Bool
  distance_to_liq : ℚ
  deriving DecidableEq, Repr

/-- `LiquidationEngine.get_margin_status`: its very first step is
`side = position.side.value`, which raises `AttributeError` for the
engine's string-sided positions; the remaining computation is retained
faithfully (`mark_price` is the fetched mark price, with the code's
fallback applied by the caller). -/
def get_margin_status (mmr warning_threshold : ℚ) (position : PaperPosition)
    (mark_price : ℚ) : Except PaperError MarginStatus := do
  let side ← str_value_attr position.side
  let entry_price := position.entry_price
  let quantity := position.quantity
  let leverage := position.leverage
  let notional := quantity * entry_price
  if leverage = 0 then throw .decimalDivisionByZero
  let initial_margin := notional / (leverage : ℚ)
  let maintenance_margin := notional * mmr
  let unrealized_pnl :=
    if side = "LONG" then quantity * (mark_price - entry_price)
    else quantity * (entry_price - mark_price)
  let margin_balance := initial_margin + unrealized_pnl
  let margin_ratio :=
    if maintenance_margin > 0 then margin_balance / maintenance_margin else 999
  let liq_price ← liq_calculate_liquidation_price mmr entry_price leverage side
  if mark_price = 0 then throw .decimalDivisionByZero
  let distance_to_liq :=
    if side = "LONG" then (mark_price - liq_price) / mark_price * 100
    else (liq_price - mark_price) / mark_price * 100
  return { position_id := position.position_id, symbol := position.symbol,
           side := side, entry_price := entry_price, mark_price := mark_price,
           quantity := quantity, leverage := leverage,
           initial_margin := initial_margin,
           maintenance_margin := maintenance_margin,
           unrealized_pnl := unrealized_pnl, margin_balance := margin_balance,
           margin_ratio := margin_ratio, liquidation_price := liq_price,
           is_at_risk := decide (margin_ratio < warning_threshold),
           is_liquidatable := decide (margin_ratio ≤ 1),
           distance_to_liq := distance_to_liq }

/-- The margin-ratio arithmetic of `get_margin_status` (liquidation.py
344-362) isolated from the crashing `side.value` lookup: what the check
computes for a position of the given direction. -/
def margin_ratio_of (mmr : ℚ) (is_long : Bool)
    (entry_price mark_price quantity : ℚ) (leverage : Nat) : ℚ :=
  let notional := quantity * entry_price
  let initial_margin := notional / (leverage : ℚ)
  let maintenance_margin := notional * mmr
  let unrealized_pnl :=
    if is_long then quantity * (mark_price - entry_price)
    else quantity * (entry_price - mark_price)
  let margin_balance := initial_margin + unrealized_pnl
  if maintenance_margin > 0 then margin_balance / maintenance_margin else 999

/-- The `self._engine.close_position(position_id=..., close_price=...,
reason=...)` call in `LiquidationEngine._liquidate_position`:
`PaperTradingEngine.close_position(position_id, quantity=None)` accepts no
`close_price` or `reason` keyword, so the call raises `TypeError` before
running. -/
def engine_close_position_kwargs (_position_id : Nat) (_close_price : ℚ)
    (_reason : String) : Except PaperError PaperPosition :=
  .error (.typeError "unexpected keyword argument")

/-- `LiquidationEngine._liquidate_position`: the `close_position` keyword
call raises `TypeError`, caught by the broad `except`, whose handler then
dereferences `self._engine._positions` — an `AttributeError` that
propagates out before the liquidation fee is deducted or the event
recorded, leaving the engine untouched. -/
def liquidate_position (liq_fee_rate : ℚ) (st : EngineState)
    (position : PaperPosition) (status : MarginStatus) :
    EngineState × Except PaperError Unit :=
  let notional_at_liq := position.quantity * status.mark_price
  let liquidation_fee := notional_at_liq * liq_fee_rate
  let margin_lost₀ := status.initial_margin + status.unrealized_pnl
  let _margin_lost := if margin_lost₀ < 0 then status.initial_margin else margin_lost₀
  let _remaining_margin := max 0 (status.margin_balance - liquidation_fee)
  match engine_close_position_kwargs position.position_id status.mark_price
      "LIQUIDATED" with
  | .ok _ =>
    -- would continue with `engine._wallet.balance -= liquidation_fee`
    match engine_underscore_wallet st with
    | .error e => (st, .error e)
    | .ok w => ({ st with wallet := { w with balance := w.balance - liquidation_fee } },
                .ok ())
  | .error _ =>
    match engine_underscore_positions st with
    | .error e => (st, .error e)
    | .ok _ => (st, .ok ())

/-- One position's turn inside `LiquidationEngine._check_positions`:
compute the margin status, then liquidate when `is_liquidatable` (the
at-risk warning and safe branches only log / fire callbacks).  The
surrounding per-position `except` in `_check_positions` logs any exception
and moves on, so a crash leaves the engine untouched; the returned
`Option PaperError` reports it. -/
def liquidation_check_position (mmr warning_threshold liq_fee_rate : ℚ)
    (st : EngineState) (position : PaperPosition) (mark_price : ℚ) :
    EngineState × Option PaperError :=
  match get_margin_status mmr warning_threshold position mark_price with
  | .error e => (st, some e)
  | .ok status =>
    if status.is_liquidatable then
      match liquidate_position liq_fee_rate st position status with
      | (st, .error e) => (st, some e)
      | (st, .ok _) => (st, none)
    else (st, none)

/-! ### Margin-accounting sums (the quantities of the `locked_margin`
invariant) -/

/-- A position's contribution to the open-position margin total. -/
def posContrib (p : PaperPosition) : ℚ :=
  if p.status = .OPEN then p.margin else 0

/-- Sum of the `margin` fields of all OPEN positions. -/
def open_margin_sum (ps : List PaperPosition) : ℚ := (ps.map posContrib).sum

/-- An order's contribution to the pending-limit-order margin total. -/
def ordContrib (o : PaperOrder) : ℚ :=
  if o.status = .PENDING ∧ o.order_type = "LIMIT" then o.margin_used else 0

/-- Sum of the `margin_used` fields of all PENDING limit orders. -/
def pending_margin_sum (os : List PaperOrder) : ℚ := (os.map ordContrib).sum

/-! ### Basic lemmas about the store/find helpers -/

theorem py_upper_LONG : py_upper "LONG" = "LONG" := by decide

theorem py_upper_SHORT : py_upper "SHORT" = "SHORT" := by decide

/-- Storing a position makes it the one found under its id. -/
theorem findPosition_store (ps : List PaperPosition) (q : PaperPosition) :
    findPosition (storePosition ps q) q.position_id = some q := by
  unfold storePosition storeBy
  split
  · rename_i hany
    induction ps with
    | nil => simp at hany
    | cons x t ih =>
      by_cases hx : x.position_id = q.position_id
      · simp [findPosition, hx]
      · have : (t.any fun x => decide (x.position_id = q.position_id)) = true := by
          simpa [List.any_cons, hx] using hany
        simpa [findPosition, hx] using ih this
  · rename_i hany
    have hnone : findPosition ps q.position_id = none := by
      unfold findPosition
      rw [List.find?_eq_none]
      intro x hx
      by_contra hcon
      exact hany (List.any_eq_true.mpr ⟨x, hx, by simpa using of_decide_eq_true (by simpa using hcon)⟩)
    unfold findPosition at *
    rw [List.find?_append, hnone]
    simp

/-- Elements of a stored list come from the original list or are the stored
position. -/
theorem mem_storePosition (ps : List PaperPosition) (q x : PaperPosition)
    (hx : x ∈ storePosition ps q) : x ∈ ps ∨ x = q := by
  unfold storePosition storeBy at hx
  split at hx
  · obtain ⟨y, hy, hxy⟩ := List.mem_map.mp hx
    by_cases h : y.position_id = q.position_id
    · rw [if_pos h] at hxy; exact .inr hxy.symm
    · rw [if_neg h] at hxy; exact .inl (hxy ▸ hy)
  · rcases List.mem_append.mp hx with h | h
    · exact .inl h
    · exact .inr (List.mem_singleton.mp h)

/-- An element of a stored list other than the stored position itself was
already present, with a different id. -/
theorem mem_storePosition_ne (ps : List PaperPosition) (q x : PaperPosition)
    (hx : x ∈ storePosition ps q) (hne : x ≠ q) :
    x ∈ ps ∧ x.position_id ≠ q.position_id := by
  unfold storePosition storeBy at hx
  split at hx
  · obtain ⟨y, hy, hxy⟩ := List.mem_map.mp hx
    by_cases h : y.position_id = q.position_id
    · rw [if_pos h] at hxy; exact absurd hxy.symm hne
    · rw [if_neg h] at hxy; subst hxy; exact ⟨hy, h⟩
  · rcases List.mem_append.mp hx with h | h
    · rename_i hany
      refine ⟨h, fun hid => hany ?_⟩
      exact List.any_eq_true.mpr ⟨x, h, by simp [hid]⟩
    · exact absurd (List.mem_singleton.mp h) hne

/-- Unfolding one operation at the head of a run. -/
theorem run_fst_cons (st : EngineState) (a : PriceFeed × EngineOp)
    (l : List (PriceFeed × EngineOp)) :
    (run st (a :: l)).1 = (run (step a.1 st a.2).1 l).1 := by
  simp [run]

/-- A finished run returns its state. -/
theorem run_fst_nil (st : EngineState) : (run st []).1 = st := rfl

/-! ### C3: the `available ≥ 0` wallet invariant fails on a losing close -/

/-- The engine state after opening LONG 1 unit of "Y" at price 100 with
10× leverage from a 10.05 USDT wallet: margin 10 and fee 0.05 consume the
whole balance (`available = 0`). -/
def C3_mid : EngineState :=
  { fee_rate := 1/2000,
    wallet := { balance := 10, available := 0, locked_margin := 10,
                unrealized_pnl := 0, realized_pnl := 0, total_fees_paid := 1/20 },
    orders := [{ order_id := 0, symbol := "Y", side := "LONG",
                 order_type := "MARKET", quantity := 1, leverage := 10,
                 status := .FILLED, price := none, filled_price := some 100,
                 stoploss_price := none, takeprofit_price := none,
                 reduce_only := false, fee_paid := 1/20, margin_used := 10,
                 created_at := 0, filled_at := some 0, cancelled_at := none,
                 expires_at := none, position_id := some 1 }],
    positions := [{ position_id := 1, symbol := "Y", side := "LONG",
                    status := .OPEN, quantity := 1, entry_price := 100,
                    leverage := 10, margin := 10, unrealized_pnl := 0,
                    realized_pnl := 0, stoploss_price := none,
                    takeprofit_price := none, liquidation_price := some 91,
                    opened_at := 0, closed_at := none, close_reason := none,
                    exit_price := none }],
    trade_history := [{ trade_id := 2, order_id := some 0, position_id := some 1,
                        symbol := "Y", side := "LONG", action := "OPEN",
                        quantity := 1, price := 100, notional := 100, fee := 1/20,
                        pnl := none, pnl_percent := none, executed_at := 0 }],
    pending_orders := [], next_id := 3 }

/-- C3: the claim that `wallet.available` stays non-negative after every
sequence of engine operations is broken by the code (and contradicts
`PaperWallet`'s own documented invariant): opening LONG 1 @ 100 with 10×
leverage from a 10.05 USDT wallet leaves `available = 0`, and closing the
position after the price halves realizes a −50.025 loss straight into
`available`, driving it to −40.025. -/
theorem C3_available_goes_negative :
    (run (init_engine (201/20) none)
      [(const_feed 100, .market "Y" "LONG" 1 10 none none false 0),
       (const_feed 50, .closePos 1 none 3)]).1.wallet.available < 0 := by
  have h1 : step (const_feed 100) (init_engine (201/20) none)
      (.market "Y" "LONG" 1 10 none none false 0) = (C3_mid, false) := by
    norm_num [step, create_market_order, const_feed, py_upper_LONG, execute_order,
      finish_execute_order, apply_risk_prices, handle_position_for_order, EngineState.find_position,
      create_position, storePosition, storeOrder, storeBy, findPosition, findOrder,
      init_engine, truthyQ, EngineState.fresh, PaperWallet.lock_margin,
      PaperWallet.deduct_fee, PaperPosition.calculate_liquidation_price,
      PaperOrder.fill, opposite_side, C3_mid]
  have h2 : (step (const_feed 50) C3_mid (.closePos 1 none 3)).1.wallet.available
      = -1601/40 := by
    norm_num [step, close_position, get_position, close_position_internal,
      storePosition, storeBy, findPosition, C3_mid, const_feed, EngineState.fresh,
      PaperWallet.realize_pnl, PaperPosition.close, action_of_reason,
      PaperPosition.calculate_unrealized_pnl, PaperPosition.update_pnl]
  simp only [run_fst_cons, run_fst_nil, h1, h2]
  norm_num

/-! ### C4: reduce-only with a same-side position averages in -/

/-- The engine state after opening LONG 1 unit of "X" at price 100 with
10× leverage from a 1000 USDT wallet. -/
def C4_mid : EngineState :=
  { fee_rate := 1/2000,
    wallet := { balance := 19999/20, available := 19799/20, locked_margin := 10,
                unrealized_pnl := 0, realized_pnl := 0, total_fees_paid := 1/20 },
    orders := [{ order_id := 0, symbol := "X", side := "LONG",
                 order_type := "MARKET", quantity := 1, leverage := 10,
                 status := .FILLED, price := none, filled_price := some 100,
                 stoploss_price := none, takeprofit_price := none,
                 reduce_only := false, fee_paid := 1/20, margin_used := 10,
                 created_at := 0, filled_at := some 0, cancelled_at := none,
                 expires_at := none, position_id := some 1 }],
    positions := [{ position_id := 1, symbol := "X", side := "LONG",
                    status := .OPEN, quantity := 1, entry_price := 100,
                    leverage := 10, margin := 10, unrealized_pnl := 0,
                    realized_pnl := 0, stoploss_price := none,
                    takeprofit_price := none, liquidation_price := some 91,
                    opened_at := 0, closed_at := none, close_reason := none,
                    exit_price := none }],
    trade_history := [{ trade_id := 2, order_id := some 0, position_id := some 1,
                        symbol := "X", side := "LONG", action := "OPEN",
                        quantity := 1, price := 100, notional := 100, fee := 1/20,
                        pnl := none, pnl_percent := none, executed_at := 0 }],
    pending_orders := [], next_id := 3 }

/-- C4: a `reduce_only` market order that meets a *same-side* open position
is executed as an ordinary order and averages in — the position grows from
quantity 1 to quantity 2 and stays OPEN, contradicting the documented
reduce-only semantics ("only reduces existing position", never opens new
exposure). -/
theorem C4_reduce_only_enlarges_position :
    ((run (init_engine 1000 none)
        [(const_feed 100, .market "X" "LONG" 1 10 none none false 0),
         (const_feed 100, .market "X" "LONG" 1 10 none none true 1)]).1.positions.map
      fun p => (p.side, p.quantity, p.status)) =
      [("LONG", 2, .OPEN)] := by
  have h1 : step (const_feed 100) (init_engine 1000 none)
      (.market "X" "LONG" 1 10 none none false 0) = (C4_mid, false) := by
    norm_num [step, create_market_order, const_feed, py_upper_LONG, execute_order,
      finish_execute_order, apply_risk_prices, handle_position_for_order, EngineState.find_position,
      create_position, storePosition, storeOrder, storeBy, findPosition, findOrder,
      init_engine, truthyQ, EngineState.fresh, PaperWallet.lock_margin,
      PaperWallet.deduct_fee, PaperPosition.calculate_liquidation_price,
      PaperOrder.fill, opposite_side, C4_mid]
  have h2 : ((step (const_feed 100) C4_mid
      (.market "X" "LONG" 1 10 none none true 1)).1.positions.map
        fun p => (p.side, p.quantity, p.status)) = [("LONG", 2, .OPEN)] := by
    norm_num [step, create_market_order, const_feed, py_upper_LONG, execute_order,
      finish_execute_order, apply_risk_prices, handle_position_for_order, EngineState.find_position,
      average_into_position, storePosition, storeOrder, storeBy, findPosition, findOrder,
      truthyQ, EngineState.fresh, PaperWallet.lock_margin,
      PaperWallet.deduct_fee, PaperPosition.calculate_liquidation_price,
      PaperOrder.fill, opposite_side, C4_mid]
  simp only [run_fst_cons, run_fst_nil, h1, h2]

/-! ### C5: what a successful limit-order creation reserves -/

/-- C5 counterexample: creating a limit order for 1 unit at price 100 with
10× leverage from a fresh 10000 USDT engine succeeds, but `available`
drops to 9990 — by the margin 10 alone.  The claimed drop of
margin *plus* fee (10 + 0.05) does not match: the fee is only checked for
sufficiency at creation and deducted when the order fills. -/
theorem C5_counterexample :
    (create_limit_order (const_feed 100) (init_engine 10000 none) "X" "LONG" 1 100
        10 none none false 0).1.wallet.available = 9990 ∧
    (∃ o, (create_limit_order (const_feed 100) (init_engine 10000 none) "X" "LONG"
        1 100 10 none none false 0).2 = .ok o) ∧
    ((10000 : ℚ) - 9990 ≠
      1 * 100 / 10 + 1 * 100 * (init_engine 10000 none).fee_rate) := by
  refine ⟨?_, ⟨?_, ?_⟩, ?_⟩
  · norm_num [create_limit_order, const_feed, py_upper_LONG, init_engine, truthyQ,
      EngineState.fresh, PaperWallet.lock_margin, storeOrder, storeBy, addPending,
      LIMIT_ORDER_EXPIRY_HOURS]
  · exact { order_id := 0, symbol := "X", side := "LONG", order_type := "LIMIT",
            quantity := 1, price := some 100, leverage := 10, status := .PENDING,
            margin_used := 10, created_at := 0, expires_at := some 86400 }
  · norm_num [create_limit_order, const_feed, py_upper_LONG, init_engine, truthyQ,
      EngineState.fresh, PaperWallet.lock_margin, storeOrder, storeBy, addPending,
      LIMIT_ORDER_EXPIRY_HOURS]
  · norm_num [init_engine, truthyQ]

/-- C5 (amended): a successful `create_limit_order` decreases
`wallet.available` by exactly the margin `quantity * price / leverage`
(the fee enters only the sufficiency check `available ≥ margin + fee`; it
is deducted when the order later fills), and the returned order is PENDING
with `expires_at` equal to its creation time plus 24 hours. -/
theorem C5_limit_order_reserves_margin
    (feed : PriceFeed) (st : EngineState) (symbol side₀ : String)
    (quantity price : ℚ) (leverage : Nat)
    (stoploss_price takeprofit_price : Option ℚ) (reduce_only : Bool) (now : ℕ)
    (hside : py_upper side₀ = "LONG" ∨ py_upper side₀ = "SHORT")
    (hsym : feed.is_valid_symbol symbol = true)
    (hq : (feed.validate_quantity symbol quantity).1 = true)
    (hl : (feed.validate_leverage symbol leverage).1 = true)
    (hlev : leverage ≠ 0)
    (havail : ¬(st.wallet.available <
        quantity * price / (leverage : ℚ) + quantity * price * st.fee_rate))
    (hfee : 0 ≤ quantity * price * st.fee_rate) :
    ∃ o, (create_limit_order feed st symbol side₀ quantity price leverage
        stoploss_price takeprofit_price reduce_only now).2 = .ok o ∧
      (create_limit_order feed st symbol side₀ quantity price leverage
        stoploss_price takeprofit_price reduce_only now).1.wallet.available =
        st.wallet.available - quantity * price / (leverage : ℚ) ∧
      o.status = .PENDING ∧ o.created_at = now ∧
      o.expires_at = some (now + 24 * 3600) := by
  obtain ⟨bq, sq, hvq⟩ : ∃ b s, feed.validate_quantity symbol quantity = (b, s) :=
    ⟨_, _, rfl⟩
  obtain ⟨bl, sl, hvl⟩ : ∃ b s, feed.validate_leverage symbol leverage = (b, s) :=
    ⟨_, _, rfl⟩
  rw [hvq] at hq; rw [hvl] at hl
  subst hq; subst hl
  have hlock : ¬(quantity * price / (leverage : ℚ) > st.wallet.available) := by
    push_neg at havail ⊢; linarith
  unfold create_limit_order
  rw [if_neg (not_not_intro hside), if_neg (by simp [hsym]), hvq, hvl]
  simp only [if_neg hlev]
  rw [if_neg havail]
  simp only [PaperWallet.lock_margin, if_neg hlock, EngineState.fresh]
  refine ⟨_, rfl, ?_, rfl, rfl, ?_⟩
  · simp
  · simp [LIMIT_ORDER_EXPIRY_HOURS]

/-- C5 witness: the amended theorem applied to a concrete limit order
(1 unit at price 100, 10× leverage, 10000 USDT engine, clock 0). -/
theorem C5_witness :
    ∃ o, (create_limit_order (const_feed 100) (init_engine 10000 none) "X" "LONG"
        1 100 10 none none false 0).2 = .ok o ∧
      (create_limit_order (const_feed 100) (init_engine 10000 none) "X" "LONG"
        1 100 10 none none false 0).1.wallet.available =
        (init_engine 10000 none).wallet.available - 1 * 100 / (10 : ℚ) ∧
      o.status = .PENDING ∧ o.created_at = 0 ∧
      o.expires_at = some (0 + 24 * 3600) :=
  C5_limit_order_reserves_margin (const_feed 100) (init_engine 10000 none) "X"
    "LONG" 1 100 10 none none false 0
    (by rw [py_upper_LONG]; left; rfl)
    (by rfl) (by rfl) (by rfl) (by norm_num)
    (by norm_num [init_engine, truthyQ])
    (by norm_num [init_engine, truthyQ])

/-! ### C8: what happens on an InsufficientMargin rejection -/

/-- C8 counterexample: a limit order from an empty wallet raises
`InsufficientMargin` carrying required = 10.05 and available = 0, but the
engine state — orders included — is entirely unchanged: no order is
recorded with status REJECTED, contrary to the claim that market and limit
orders alike leave a REJECTED record. -/
theorem C8_counterexample :
    create_limit_order (const_feed 100) (init_engine 0 none) "X" "LONG" 1 100 10
        none none false 0 =
      (init_engine 0 none, .error (.insufficientMargin (201/20) 0)) := by
  norm_num [create_limit_order, const_feed, py_upper_LONG, init_engine, truthyQ]

/-- C8 (amended): when order creation fails with `InsufficientMargin`
(`available < required_margin + fee`), the error carries the required and
available amounts and no wallet field changes; a *market* order is
additionally recorded with status REJECTED, while a *limit* order leaves
the engine state entirely unchanged (no order is recorded at all). -/
theorem C8_insufficient_margin_behavior
    (feed : PriceFeed) (st : EngineState) (symbol side₀ : String)
    (quantity price : ℚ) (leverage : Nat)
    (stoploss_price takeprofit_price : Option ℚ) (now : ℕ)
    (hside : py_upper side₀ = "LONG" ∨ py_upper side₀ = "SHORT")
    (hq : (feed.validate_quantity symbol quantity).1 = true)
    (hl : (feed.validate_leverage symbol leverage).1 = true)
    (hlev : leverage ≠ 0)
    (hshort : st.wallet.available <
        quantity * price / (leverage : ℚ) + quantity * price * st.fee_rate) :
    (feed.get_price symbol = .ok price →
      (∀ o ∈ st.orders, o.order_id ≠ st.next_id) →
      create_market_order feed st symbol side₀ quantity leverage stoploss_price
          takeprofit_price false now =
        ({ st with
            orders := st.orders ++
              [{ order_id := st.next_id, symbol := symbol,
                 side := py_upper side₀, order_type := "MARKET",
                 quantity := quantity, leverage := leverage, status := .REJECTED,
                 stoploss_price := stoploss_price,
                 takeprofit_price := takeprofit_price, reduce_only := false,
                 created_at := now }],
            next_id := st.next_id + 1 },
         .error (.insufficientMargin
           (quantity * price / (leverage : ℚ) + quantity * price * st.fee_rate)
           st.wallet.available), false)) ∧
    (feed.is_valid_symbol symbol = true →
      create_limit_order feed st symbol side₀ quantity price leverage
          stoploss_price takeprofit_price false now =
        (st, .error (.insufficientMargin
           (quantity * price / (leverage : ℚ) + quantity * price * st.fee_rate)
           st.wallet.available))) := by
  obtain ⟨bq, sq, hvq⟩ : ∃ b s, feed.validate_quantity symbol quantity = (b, s) :=
    ⟨_, _, rfl⟩
  obtain ⟨bl, sl, hvl⟩ : ∃ b s, feed.validate_leverage symbol leverage = (b, s) :=
    ⟨_, _, rfl⟩
  rw [hvq] at hq; rw [hvl] at hl
  subst hq; subst hl
  constructor
  · intro hprice hfresh
    have hany : (st.orders.any fun x => decide (x.order_id = st.next_id)) = false := by
      rw [List.any_eq_false]
      intro o ho
      simpa using hfresh o ho
    unfold create_market_order
    rw [if_neg (not_not_intro hside), hprice, hvq, hvl]
    unfold execute_order
    simp only [if_neg hlev]
    norm_num [EngineState.fresh, EngineState.find_position, storeOrder, storeBy, hany,
      if_pos hshort, hshort]
  · intro hsym
    unfold create_limit_order
    rw [if_neg (not_not_intro hside), if_neg (by simp [hsym]), hvq, hvl]
    simp only [if_neg hlev]
    rw [if_pos hshort]

/-- C8 witness: the amended theorem applied to an empty wallet, with a
market and a limit order for 1 unit at price 100 and 10× leverage. -/
theorem C8_witness :
    create_market_order (const_feed 100) (init_engine 0 none) "X" "LONG" 1 10
        none none false 0 =
      ({ init_engine 0 none with
          orders := [{ order_id := 0, symbol := "X", side := py_upper "LONG",
                       order_type := "MARKET", quantity := 1, leverage := 10,
                       status := .REJECTED, stoploss_price := none,
                       takeprofit_price := none, reduce_only := false,
                       created_at := 0 }],
          next_id := 1 },
       .error (.insufficientMargin
         (1 * 100 / (10 : ℚ) + 1 * 100 * (init_engine 0 none).fee_rate)
         (init_engine 0 none).wallet.available), false) ∧
    create_limit_order (const_feed 100) (init_engine 0 none) "X" "LONG" 1 100 10
        none none false 0 =
      (init_engine 0 none,
       .error (.insufficientMargin
         (1 * 100 / (10 : ℚ) + 1 * 100 * (init_engine 0 none).fee_rate)
         (init_engine 0 none).wallet.available)) := by
  have H := C8_insufficient_margin_behavior (const_feed 100) (init_engine 0 none)
    "X" "LONG" 1 100 10 none none 0
    (by rw [py_upper_LONG]; left; rfl) (by rfl) (by rfl) (by norm_num)
    (by norm_num [init_engine, truthyQ])
  refine ⟨?_, H.2 rfl⟩
  have := H.1 rfl (by simp [init_engine])
  simpa [init_engine, truthyQ] using this

/-! ### Shape lemmas for `close_position_internal` -/

/-- Closing a position stores its CLOSED version under its id, whether or
not the trailing `pnl_percent` division raises. -/
theorem close_position_internal_positions (st : EngineState)
    (p : PaperPosition) (price : ℚ) (r : CloseReason) (now : ℕ) :
    (close_position_internal st p price r now).1.positions =
      storePosition st.positions ((p.close price r now).1) := by
  simp only [close_position_internal]
  split <;> rfl

/-- The wallet after `_close_position_internal`: PnL net of the exit fee is
realized, the position's margin released, and the exit fee added to
`total_fees_paid` — whether or not the trailing division raises. -/
theorem close_position_internal_wallet (st : EngineState)
    (p : PaperPosition) (price : ℚ) (r : CloseReason) (now : ℕ) :
    (close_position_internal st p price r now).1.wallet =
      { balance := st.wallet.balance +
          (p.calculate_unrealized_pnl price - p.quantity * price * st.fee_rate),
        available := st.wallet.available + p.margin +
          (p.calculate_unrealized_pnl price - p.quantity * price * st.fee_rate),
        locked_margin := st.wallet.locked_margin - p.margin,
        unrealized_pnl := st.wallet.unrealized_pnl,
        realized_pnl := st.wallet.realized_pnl +
          (p.calculate_unrealized_pnl price - p.quantity * price * st.fee_rate),
        total_fees_paid := st.wallet.total_fees_paid +
          p.quantity * price * st.fee_rate } := by
  simp only [close_position_internal, PaperWallet.realize_pnl, PaperPosition.close]
  split <;> rfl

/-- With a nonzero quantity (or zero entry price) the close completes and
returns the net realized PnL. -/
theorem close_position_internal_ok (st : EngineState)
    (p : PaperPosition) (price : ℚ) (r : CloseReason) (now : ℕ)
    (h : ¬(p.entry_price ≠ 0 ∧ p.quantity = 0)) :
    (close_position_internal st p price r now).2 =
      .ok (p.calculate_unrealized_pnl price - p.quantity * price * st.fee_rate) := by
  simp only [close_position_internal, PaperPosition.close]
  rw [if_neg h]

/-! ### C9: take-profit priority of the SL/TP trigger check -/

/-- A LONG position whose take-profit is the (truthiness-falsy) price 0 and
whose stop-loss is 200. -/
def C9_pos : PaperPosition :=
  { position_id := 0, symbol := "X", side := "LONG", status := .OPEN,
    quantity := 1, entry_price := 100, leverage := 10, margin := 10,
    stoploss_price := some 200, takeprofit_price := some 0 }

/-- An engine holding just that position. -/
def C9_state : EngineState :=
  { fee_rate := 1/2000,
    wallet := { balance := 990, available := 980, locked_margin := 10 },
    positions := [C9_pos], next_id := 1 }

/-- C9 counterexample: at price 100 both claimed trigger conditions hold
for this LONG position (`100 ≥ takeprofit = 0` and `100 ≤ stoploss = 200`),
yet the monitor's check closes it with close_reason STOPLOSS — the
take-profit branch is skipped because `if position.takeprofit_price:` is
falsy for `Decimal("0")`. -/
theorem C9_counterexample :
    (C9_pos.takeprofit_price = some 0 ∧ C9_pos.stoploss_price = some 200 ∧
     C9_pos.side = "LONG" ∧ (100 : ℚ) ≥ 0 ∧ (100 : ℚ) ≤ 200) ∧
    (check_position_triggers C9_state C9_pos 100 5).2 = true ∧
    (findPosition (check_position_triggers C9_state C9_pos 100 5).1.positions
        0).map (fun p => p.close_reason) = some (some .STOPLOSS) := by
  refine ⟨⟨rfl, rfl, rfl, by norm_num, by norm_num⟩, ?_, ?_⟩
  · norm_num [check_position_triggers, check_stoploss_trigger, truthyQ, C9_pos]
  · norm_num [check_position_triggers, check_stoploss_trigger, truthyQ,
      trigger_stoploss, close_position_internal, C9_pos, C9_state, storeBy,
      PaperPosition.close, PaperPosition.calculate_unrealized_pnl,
      PaperWallet.realize_pnl, storePosition, findPosition, EngineState.fresh,
      action_of_reason]

/-- C9 (amended): for every open position with a *nonzero* take-profit
price whose take-profit and stop-loss trigger conditions both hold at the
tick's current price, the monitor's trigger check fires and the position
stored under its id is closed with close_reason TAKEPROFIT, not
STOPLOSS. -/
theorem C9_tp_priority (st : EngineState) (p : PaperPosition) (price : ℚ)
    (now : ℕ) (tp sl : ℚ)
    (htp : p.takeprofit_price = some tp) (htp0 : tp ≠ 0)
    (hsl : p.stoploss_price = some sl)
    (hside : p.side = "LONG" ∨ p.side = "SHORT")
    (htpc : (p.side = "LONG" → price ≥ tp) ∧ (p.side = "SHORT" → price ≤ tp))
    (hslc : (p.side = "LONG" → price ≤ sl) ∧ (p.side = "SHORT" → price ≥ sl)) :
    (check_position_triggers st p price now).2 = true ∧
    findPosition (check_position_triggers st p price now).1.positions
        p.position_id = some ((p.close price .TAKEPROFIT now).1) ∧
    ((p.close price .TAKEPROFIT now).1).close_reason = some .TAKEPROFIT ∧
    ((p.close price .TAKEPROFIT now).1).status = .CLOSED := by
  have htruthy : truthyQ p.takeprofit_price = true := by
    rw [htp]; simpa [truthyQ] using htp0
  have hgetD : p.takeprofit_price.getD 0 = tp := by rw [htp]; rfl
  have hfire : check_position_triggers st p price now =
      (trigger_takeprofit st p price now, true) := by
    unfold check_position_triggers
    rw [if_pos htruthy]
    rcases hside with h | h
    · rw [if_pos ⟨h, hgetD ▸ htpc.1 h⟩]
    · rw [if_neg (by simp [h]), if_pos ⟨h, hgetD ▸ htpc.2 h⟩]
  have hid : ((p.close price .TAKEPROFIT now).1).position_id = p.position_id := rfl
  refine ⟨by rw [hfire], ?_, rfl, rfl⟩
  rw [hfire]
  simp only [trigger_takeprofit, close_position_internal_positions]
  rw [← hid, findPosition_store]

/-- A LONG position with take-profit 110 and stop-loss 120: at price 115
both trigger conditions hold. -/
def C9_wpos : PaperPosition :=
  { C9_pos with takeprofit_price := some 110, stoploss_price := some 120 }

/-- C9 witness: the amended theorem at that concrete position, checked at
price 115; the close reason is TAKEPROFIT. -/
theorem C9_witness :
    (check_position_triggers C9_state C9_wpos 115 5).2 = true ∧
    findPosition (check_position_triggers C9_state C9_wpos 115 5).1.positions
        C9_wpos.position_id = some ((C9_wpos.close 115 .TAKEPROFIT 5).1) ∧
    ((C9_wpos.close 115 .TAKEPROFIT 5).1).close_reason = some .TAKEPROFIT ∧
    ((C9_wpos.close 115 .TAKEPROFIT 5).1).status = .CLOSED :=
  C9_tp_priority C9_state C9_wpos 115 5 110 120 rfl (by norm_num) rfl
    (by left; rfl)
    ⟨fun _ => by norm_num, fun h => absurd h (by decide)⟩
    ⟨fun _ => by norm_num, fun h => absurd h (by decide)⟩

/-! ### C6: the liquidation check crashes before it can liquidate -/

/-- A LONG position at 100× leverage, entry 100: at mark 98 its loss (−2)
far exceeds its initial margin (1). -/
def C6_pos : PaperPosition :=
  { position_id := 0, symbol := "B", side := "LONG", status := .OPEN,
    quantity := 1, entry_price := 100, leverage := 100, margin := 1 }

/-- An engine holding just that position. -/
def C6_state : EngineState :=
  { fee_rate := 1/2000,
    wallet := { balance := 100, available := 99, locked_margin := 1 },
    positions := [C6_pos], next_id := 1 }

/-- C6: at mark price 98 the code's own margin-ratio arithmetic gives
`margin_ratio = −4 ≤ 1` for this position, so the claim's hypothesis holds;
but `get_margin_status` crashes on its first line (`position.side.value`
on a plain string) with `AttributeError`, so the per-position check in
`_check_positions` merely logs the exception: the position is never
force-closed (it stays OPEN in the unchanged engine) and no liquidation
fee is deducted. -/
theorem C6_liquidation_check_crashes :
    margin_ratio_of (5/1000) true C6_pos.entry_price 98 C6_pos.quantity
        C6_pos.leverage ≤ 1 ∧
    get_margin_status (5/1000) (3/2) C6_pos 98 =
      .error (.attributeError "value") ∧
    liquidation_check_position (5/1000) (3/2) (5/1000) C6_state C6_pos 98 =
      (C6_state, some (.attributeError "value")) ∧
    C6_pos.status = .OPEN := by
  refine ⟨by norm_num [margin_ratio_of, C6_pos], ?_, ?_, rfl⟩
  · rfl
  · rfl

/-! ### C7: funding settlement crashes before it can settle -/

/-- A LONG position opened at clock 100 (just past midnight UTC). -/
def C7_pos : PaperPosition :=
  { position_id := 0, symbol := "B", side := "LONG", status := .OPEN,
    quantity := 1, entry_price := 50000, leverage := 10, margin := 5000,
    opened_at := 100 }

/-- An engine holding just that position. -/
def C7_state : EngineState :=
  { fee_rate := 1/2000,
    wallet := { balance := 10000, available := 5000, locked_margin := 5000 },
    positions := [C7_pos], next_id := 1 }

/-- An external-data source with funding rate +0.01 % and mark price 50000
for every symbol. -/
def C7_info : String → Except PaperError (ℚ × ℚ) := fun _ => .ok (1/10000, 50000)

/-- C7: by clock 30000 (08:20 UTC) exactly one 8-hour funding boundary
(08:00 UTC = 28800) has elapsed since the position opened, so the claim
requires one settlement applying the payment to the wallet balance; but
`_calculate_funding_payment` reads `position.side.value` on a plain string
and raises `AttributeError`, which propagates out of
`_process_position_funding`: no payment is applied or recorded, the
last-settled time is not advanced, and the engine is unchanged. -/
theorem C7_funding_settlement_crashes :
    get_funding_times_between 100 30000 = [28800] ∧
    process_position_funding C7_info C7_state ⟨[], []⟩ C7_pos 30000 =
      ((C7_state, ⟨[], []⟩), .error (.attributeError "value")) := by
  have ht : get_funding_times_between 100 30000 = [28800] := by
    simp [get_funding_times_between, day_start, get_funding_times_go,
      FUNDING_HOURS]
  refine ⟨ht, ?_⟩
  simp only [process_position_funding, lookupLast, List.find?_nil,
    Option.map_none', Option.getD_none, show C7_pos.opened_at = 100 from rfl, ht]
  rfl

/-! ### C10: reduce-only against an opposite position closes it whole -/

/-- C10: a reduce-only market order meeting an opposite-side position (the
only open position on its symbol) closes that position *in full* at the
current price — whatever the order quantity, even strictly smaller — marks
the order FILLED, and leaves no open position on the symbol. -/
theorem C10_reduce_only_closes_full
    (feed : PriceFeed) (st : EngineState) (symbol side₀ : String)
    (quantity : ℚ) (leverage : Nat)
    (stoploss_price takeprofit_price : Option ℚ) (now : ℕ) (price : ℚ)
    (pos : PaperPosition)
    (hside : py_upper side₀ = "LONG" ∨ py_upper side₀ = "SHORT")
    (hprice : feed.get_price symbol = .ok price)
    (hq : (feed.validate_quantity symbol quantity).1 = true)
    (hl : (feed.validate_leverage symbol leverage).1 = true)
    (hlev : leverage ≠ 0)
    (hsame : st.find_position symbol (py_upper side₀) = none)
    (hopp : st.find_position symbol (opposite_side (py_upper side₀)) = some pos)
    (honly : ∀ p ∈ st.positions, p.symbol = symbol → p.status = .OPEN →
      p.position_id = pos.position_id)
    (hposq : 0 < pos.quantity) :
    (∃ o, (create_market_order feed st symbol side₀ quantity leverage
        stoploss_price takeprofit_price true now).2.1 = .ok o ∧
      o.status = .FILLED ∧ o.position_id = some pos.position_id ∧
      o.quantity = quantity) ∧
    findPosition (create_market_order feed st symbol side₀ quantity leverage
        stoploss_price takeprofit_price true now).1.positions pos.position_id =
      some ((pos.close price .MANUAL now).1) ∧
    ((pos.close price .MANUAL now).1).status = .CLOSED ∧
    ((pos.close price .MANUAL now).1).quantity = pos.quantity ∧
    ((pos.close price .MANUAL now).1).exit_price = some price ∧
    (∀ p ∈ (create_market_order feed st symbol side₀ quantity leverage
        stoploss_price takeprofit_price true now).1.positions,
      p.symbol = symbol → p.status ≠ .OPEN) := by
  obtain ⟨bq, sq, hvq⟩ : ∃ b s, feed.validate_quantity symbol quantity = (b, s) :=
    ⟨_, _, rfl⟩
  obtain ⟨bl, sl, hvl⟩ : ∃ b s, feed.validate_leverage symbol leverage = (b, s) :=
    ⟨_, _, rfl⟩
  rw [hvq] at hq; rw [hvl] at hl
  subst hq; subst hl
  have hok : ¬(pos.entry_price ≠ 0 ∧ pos.quantity = 0) := by
    rintro ⟨-, h0⟩; rw [h0] at hposq; exact lt_irrefl 0 hposq
  have hsame1 : EngineState.find_position { st with next_id := st.next_id + 1 }
      symbol (py_upper side₀) = none := hsame
  have hopp1 : EngineState.find_position { st with next_id := st.next_id + 1 }
      symbol (opposite_side (py_upper side₀)) = some pos := hopp
  have key : create_market_order feed st symbol side₀ quantity leverage
      stoploss_price takeprofit_price true now =
    (let CLOSED := (close_position_internal { st with next_id := st.next_id + 1 }
        pos price .MANUAL now).1
     let FILLED : PaperOrder :=
       { order_id := st.next_id, symbol := symbol, side := py_upper side₀,
         order_type := "MARKET", quantity := quantity, leverage := leverage,
         status := .FILLED, filled_price := some price,
         stoploss_price := stoploss_price,
         takeprofit_price := takeprofit_price, reduce_only := true,
         created_at := now, filled_at := some now,
         position_id := some pos.position_id }
     ({ CLOSED with orders := storeOrder CLOSED.orders FILLED },
      .ok FILLED, false)) := by
    unfold create_market_order
    rw [if_neg (not_not_intro hside), hprice, hvq, hvl]
    unfold execute_order
    simp only [if_neg hlev, EngineState.fresh, if_true]
    rw [if_pos (by simp [hsame1])]
    rw [hopp1]
    simp only []
    rw [show close_position_internal { st with next_id := st.next_id + 1 }
          pos price .MANUAL now =
        ((close_position_internal { st with next_id := st.next_id + 1 }
          pos price .MANUAL now).1,
         (close_position_internal { st with next_id := st.next_id + 1 }
          pos price .MANUAL now).2) from rfl]
    rw [close_position_internal_ok _ _ _ _ _ hok]
    rfl
  rw [key]
  have hcp : (close_position_internal { st with next_id := st.next_id + 1 }
      pos price .MANUAL now).1.positions =
      storePosition st.positions ((pos.close price .MANUAL now).1) :=
    close_position_internal_positions _ _ _ _ _
  refine ⟨⟨_, rfl, rfl, rfl, rfl⟩, ?_, rfl, rfl, rfl, ?_⟩
  · show findPosition (close_position_internal _ pos price .MANUAL now).1.positions
        pos.position_id = _
    rw [hcp]
    exact findPosition_store st.positions ((pos.close price .MANUAL now).1)
  · intro p hp hpsym hpopen
    have hp' : p ∈ storePosition st.positions ((pos.close price .MANUAL now).1) := by
      rw [← hcp]; exact hp
    have hpne : p ≠ (pos.close price .MANUAL now).1 := by
      intro he
      rw [he] at hpopen
      simp [PaperPosition.close] at hpopen
    obtain ⟨hmem, hid⟩ := mem_storePosition_ne _ _ _ hp' hpne
    exact hid (honly p hmem hpsym hpopen)

/-- A SHORT position of quantity 2 on symbol "Z". -/
def C10_pos : PaperPosition :=
  { position_id := 0, symbol := "Z", side := "SHORT", status := .OPEN,
    quantity := 2, entry_price := 100, leverage := 10, margin := 20 }

/-- An engine holding just that position. -/
def C10_state : EngineState :=
  { fee_rate := 1/2000,
    wallet := { balance := 1000, available := 980, locked_margin := 20 },
    positions := [C10_pos], next_id := 1 }

/-- C10 witness: a reduce-only LONG market order of quantity 1/2 — a
quarter of the open SHORT's size — closes the whole SHORT position of
quantity 2 at price 95 and is marked FILLED. -/
theorem C10_witness :
    (∃ o, (create_market_order (const_feed 95) C10_state "Z" "LONG" (1/2) 10
        none none true 7).2.1 = .ok o ∧
      o.status = .FILLED ∧ o.position_id = some C10_pos.position_id ∧
      o.quantity = 1/2) ∧
    findPosition (create_market_order (const_feed 95) C10_state "Z" "LONG" (1/2)
        10 none none true 7).1.positions C10_pos.position_id =
      some ((C10_pos.close 95 .MANUAL 7).1) ∧
    ((C10_pos.close 95 .MANUAL 7).1).status = .CLOSED ∧
    ((C10_pos.close 95 .MANUAL 7).1).quantity = C10_pos.quantity ∧
    ((C10_pos.close 95 .MANUAL 7).1).exit_price = some 95 ∧
    (∀ p ∈ (create_market_order (const_feed 95) C10_state "Z" "LONG" (1/2) 10
        none none true 7).1.positions,
      p.symbol = "Z" → p.status ≠ .OPEN) :=
  C10_reduce_only_closes_full (const_feed 95) C10_state "Z" "LONG" (1/2) 10
    none none 7 95 C10_pos
    (by rw [py_upper_LONG]; left; rfl)
    rfl rfl rfl (by norm_num) rfl rfl
    (by intro p hp _ _
        rw [show C10_state.positions = [C10_pos] from rfl,
          List.mem_singleton] at hp
        rw [hp])
    (by norm_num [C10_pos])

/-! ### C1: the netting case split of `_net_positions` -/

/-- One more shape lemma: completing the close bumps `next_id` by exactly
the trade-id draw. -/
theorem close_position_internal_next_id (st : EngineState)
    (p : PaperPosition) (price : ℚ) (r : CloseReason) (now : ℕ)
    (h : ¬(p.entry_price ≠ 0 ∧ p.quantity = 0)) :
    (close_position_internal st p price r now).1.next_id = st.next_id + 1 := by
  simp only [close_position_internal, PaperPosition.close, EngineState.fresh]
  rw [if_neg h]

/-- The reduced position left by the partial-close branch of
`_net_positions`. -/
def net_partial_position (existing : PaperPosition) (order : PaperOrder)
    (price : ℚ) : PaperPosition :=
  { existing with
    quantity := existing.quantity - order.quantity,
    margin := existing.margin * (1 - order.quantity / existing.quantity),
    realized_pnl := existing.realized_pnl +
      existing.calculate_unrealized_pnl price *
        (order.quantity / existing.quantity) }

/-- The brand-new remainder position opened by the flip branch of
`_net_positions`. -/
def net_flip_position (st : EngineState) (existing : PaperPosition)
    (order : PaperOrder) (price : ℚ) (now : ℕ) : PaperPosition :=
  { position_id :=
      (close_position_internal st existing price .MANUAL now).1.next_id,
    symbol := order.symbol, side := order.side, status := .OPEN,
    quantity := order.quantity - existing.quantity, entry_price := price,
    leverage := order.leverage,
    margin := (order.quantity - existing.quantity) * price /
      (order.leverage : ℚ),
    opened_at := now }

/-- C1: when a filled order nets against the opposite-side position on its
symbol, `_net_positions` behaves by the claimed case split.
Equal quantities: the position is closed fully at the execution price —
PnL (net of the proportional exit fee) is realized, its margin released
from `locked_margin`, and the exit fee `quantity × price × fee_rate`
charged.  Smaller order: a partial close — PnL for the closed fraction is
realized, the position's margin is reduced proportionally (the wallet
releases the order's own margin), and the remainder stays OPEN at the
unchanged entry price.  Larger order: the existing position is closed
fully and a brand-new position (fresh id) on the order's side is opened
for the remainder quantity at the execution price. -/
theorem C1_net_positions_cases (st : EngineState) (existing : PaperPosition)
    (order : PaperOrder) (price : ℚ) (now : ℕ)
    (hopen : existing.status = .OPEN)
    (hQ : 0 < existing.quantity)
    (hlev : order.leverage ≠ 0)
    (hfresh : ∀ x ∈ st.positions, x.position_id < st.next_id) :
    (order.quantity = existing.quantity →
      (net_positions st existing order price now).2 = .ok none ∧
      findPosition (net_positions st existing order price now).1.positions
          existing.position_id = some ((existing.close price .MANUAL now).1) ∧
      ((existing.close price .MANUAL now).1).status = .CLOSED ∧
      ((existing.close price .MANUAL now).1).exit_price = some price ∧
      (net_positions st existing order price now).1.wallet.realized_pnl =
        st.wallet.realized_pnl + (existing.calculate_unrealized_pnl price -
          existing.quantity * price * st.fee_rate) ∧
      (net_positions st existing order price now).1.wallet.locked_margin =
        st.wallet.locked_margin - existing.margin ∧
      (net_positions st existing order price now).1.wallet.total_fees_paid =
        st.wallet.total_fees_paid + existing.quantity * price * st.fee_rate) ∧
    (order.quantity < existing.quantity →
      ∃ p', (net_positions st existing order price now).2 = .ok (some p') ∧
        p'.position_id = existing.position_id ∧ p'.status = .OPEN ∧
        p'.entry_price = existing.entry_price ∧
        p'.quantity = existing.quantity - order.quantity ∧
        p'.margin = existing.margin *
          (1 - order.quantity / existing.quantity) ∧
        findPosition (net_positions st existing order price now).1.positions
          existing.position_id = some p' ∧
        (net_positions st existing order price now).1.wallet.realized_pnl =
          st.wallet.realized_pnl + existing.calculate_unrealized_pnl price *
            (order.quantity / existing.quantity) ∧
        (net_positions st existing order price now).1.wallet.locked_margin =
          st.wallet.locked_margin - order.margin_used) ∧
    (existing.quantity < order.quantity →
      ∃ p', (net_positions st existing order price now).2 = .ok (some p') ∧
        p'.side = order.side ∧ p'.status = .OPEN ∧
        p'.quantity = order.quantity - existing.quantity ∧
        p'.entry_price = price ∧
        p'.margin = (order.quantity - existing.quantity) * price /
          (order.leverage : ℚ) ∧
        (∀ x ∈ st.positions, x.position_id ≠ p'.position_id) ∧
        findPosition (net_positions st existing order price now).1.positions
          existing.position_id = some ((existing.close price .MANUAL now).1)) := by
  have hok : ¬(existing.entry_price ≠ 0 ∧ existing.quantity = 0) := by
    rintro ⟨-, h0⟩; rw [h0] at hQ; exact lt_irrefl 0 hQ
  have hidclose : ((existing.close price .MANUAL now).1).position_id =
      existing.position_id := rfl
  refine ⟨fun heq => ?_, fun hlt => ?_, fun hgt => ?_⟩
  · -- equal quantities: full close
    have hres : net_positions st existing order price now =
        ((close_position_internal st existing price .MANUAL now).1, .ok none) := by
      unfold net_positions
      rw [if_pos heq]
      rw [show close_position_internal st existing price .MANUAL now =
          ((close_position_internal st existing price .MANUAL now).1,
           (close_position_internal st existing price .MANUAL now).2) from rfl]
      rw [close_position_internal_ok _ _ _ _ _ hok]
    rw [hres]
    refine ⟨rfl, ?_, rfl, rfl, ?_, ?_, ?_⟩
    · rw [close_position_internal_positions, ← hidclose, findPosition_store]
    · rw [close_position_internal_wallet]
    · rw [close_position_internal_wallet]
    · rw [close_position_internal_wallet]
  · -- smaller order: partial close
    have hne : ¬(order.quantity = existing.quantity) := ne_of_lt hlt
    have hngt : ¬(order.quantity > existing.quantity) := not_lt.mpr (le_of_lt hlt)
    have hQ0 : ¬(existing.quantity = 0) := ne_of_gt hQ
    have hrem : ¬(existing.quantity - order.quantity = 0) :=
      sub_ne_zero.mpr (ne_of_gt hlt)
    refine ⟨net_partial_position existing order price, ?_⟩
    have hpc : existing.partial_close order.quantity price now =
        .ok (net_partial_position existing order price,
          existing.calculate_unrealized_pnl price *
            (order.quantity / existing.quantity)) := by
      unfold PaperPosition.partial_close net_partial_position
      rw [if_neg hngt, if_neg hQ0]
      simp only [if_neg hrem]
    have hres : net_positions st existing order price now =
        ({ st with
            positions := storePosition st.positions
              (net_partial_position existing order price),
            wallet :=
              { (st.wallet.release_margin order.margin_used) with
                balance := (st.wallet.release_margin order.margin_used).balance +
                  existing.calculate_unrealized_pnl price *
                    (order.quantity / existing.quantity),
                available :=
                  (st.wallet.release_margin order.margin_used).available +
                  existing.calculate_unrealized_pnl price *
                    (order.quantity / existing.quantity),
                realized_pnl :=
                  (st.wallet.release_margin order.margin_used).realized_pnl +
                  existing.calculate_unrealized_pnl price *
                    (order.quantity / existing.quantity) } },
         .ok (some (net_partial_position existing order price))) := by
      unfold net_positions
      rw [if_neg hne, if_pos hlt, hpc]
    rw [hres]
    refine ⟨rfl, rfl, ?_, rfl, rfl, rfl, ?_, ?_, ?_⟩
    · exact hopen
    · exact findPosition_store st.positions _
    · simp [PaperWallet.release_margin]
    · simp [PaperWallet.release_margin]
  · -- larger order: close and flip
    have hne : ¬(order.quantity = existing.quantity) := ne_of_gt hgt
    have hnlt : ¬(order.quantity < existing.quantity) := not_lt.mpr (le_of_lt hgt)
    have hnid := close_position_internal_next_id st existing price .MANUAL now hok
    refine ⟨net_flip_position st existing order price now, ?_⟩
    have hres : net_positions st existing order price now =
        ({ (close_position_internal st existing price .MANUAL now).1 with
            positions :=
              (close_position_internal st existing price .MANUAL now).1.positions
              ++ [net_flip_position st existing order price now],
            next_id :=
              (close_position_internal st existing price .MANUAL now).1.next_id
                + 1 },
         .ok (some (net_flip_position st existing order price now))) := by
      unfold net_positions net_flip_position
      rw [if_neg hne, if_neg hnlt]
      rw [show close_position_internal st existing price .MANUAL now =
          ((close_position_internal st existing price .MANUAL now).1,
           (close_position_internal st existing price .MANUAL now).2) from rfl]
      rw [close_position_internal_ok _ _ _ _ _ hok]
      simp only [EngineState.fresh]
      rw [if_neg hlev]
    rw [hres]
    refine ⟨rfl, rfl, rfl, rfl, rfl, rfl, ?_, ?_⟩
    · intro x hx
      have := hfresh x hx
      simp only [net_flip_position, hnid]
      omega
    · show findPosition
        ((close_position_internal st existing price .MANUAL now).1.positions ++ _)
        existing.position_id = _
      rw [close_position_internal_positions]
      unfold findPosition
      rw [List.find?_append]
      have hfound : findPosition
          (storePosition st.positions ((existing.close price .MANUAL now).1))
          existing.position_id = some ((existing.close price .MANUAL now).1) := by
        rw [← hidclose, findPosition_store]
      unfold findPosition at hfound
      rw [hfound]
      rfl

/-- A LONG position of quantity 2, entry 100, margin 20. -/
def C1_ex : PaperPosition :=
  { position_id := 0, symbol := "N", side := "LONG", status := .OPEN,
    quantity := 2, entry_price := 100, leverage := 10, margin := 20 }

/-- An opposite-side (SHORT) filled order of the same quantity, margin 21
locked at its execution price 105. -/
def C1_ord : PaperOrder :=
  { order_id := 5, symbol := "N", side := "SHORT", order_type := "MARKET",
    quantity := 2, leverage := 10, status := .PENDING, margin_used := 21 }

/-- An engine holding just that position. -/
def C1_state : EngineState :=
  { fee_rate := 1/2000,
    wallet := { balance := 1000, available := 980, locked_margin := 41 },
    positions := [C1_ex], next_id := 1 }

/-- C1 witness: the equal-quantity case of the netting theorem at a
concrete input (SHORT 2 against LONG 2 at execution price 105). -/
theorem C1_witness :
    (net_positions C1_state C1_ex C1_ord 105 9).2 = .ok none ∧
    findPosition (net_positions C1_state C1_ex C1_ord 105 9).1.positions
        C1_ex.position_id = some ((C1_ex.close 105 .MANUAL 9).1) ∧
    ((C1_ex.close 105 .MANUAL 9).1).status = .CLOSED ∧
    ((C1_ex.close 105 .MANUAL 9).1).exit_price = some 105 ∧
    (net_positions C1_state C1_ex C1_ord 105 9).1.wallet.realized_pnl =
      C1_state.wallet.realized_pnl + (C1_ex.calculate_unrealized_pnl 105 -
        C1_ex.quantity * 105 * C1_state.fee_rate) ∧
    (net_positions C1_state C1_ex C1_ord 105 9).1.wallet.locked_margin =
      C1_state.wallet.locked_margin - C1_ex.margin ∧
    (net_positions C1_state C1_ex C1_ord 105 9).1.wallet.total_fees_paid =
      C1_state.wallet.total_fees_paid + C1_ex.quantity * 105 * C1_state.fee_rate :=
  (C1_net_positions_cases C1_state C1_ex C1_ord 105 9 rfl
    (by norm_num [C1_ex]) (by norm_num [C1_ord])
    (by intro x hx
        rw [show C1_state.positions = [C1_ex] from rfl, List.mem_singleton] at hx
        rw [hx]; decide)).1 rfl

/-! ### C2: the `locked_margin` accounting invariant.

Generic lemmas about `storeBy` first. -/

section StoreBy

variable {α : Type} (key : α → Nat) (g : α → ℚ)

theorem storeBy_eq_append (l : List α) (a : α)
    (h : ∀ x ∈ l, key x ≠ key a) : storeBy key l a = l ++ [a] := by
  unfold storeBy
  rw [if_neg]
  intro hc
  rw [List.any_eq_true] at hc
  obtain ⟨x, hx, hk⟩ := hc
  exact h x hx (by simpa using hk)

theorem storeBy_eq_replace (l : List α) (a q : α) (hq : q ∈ l)
    (hid : key a = key q) :
    storeBy key l a = l.map fun x => if key x = key a then a else x := by
  unfold storeBy
  rw [if_pos (List.any_eq_true.mpr ⟨q, hq, by simp [hid.symm]⟩)]

theorem replace_map_id (l : List α) (a : α)
    (h : ∀ x ∈ l, key x ≠ key a) :
    (l.map fun x => if key x = key a then a else x) = l := by
  induction l with
  | nil => rfl
  | cons x t ih =>
    rw [List.map_cons, if_neg (h x (List.mem_cons_self x t)),
      ih fun y hy => h y (List.mem_cons_of_mem x hy)]

theorem sum_map_replace (l : List α) (a q : α)
    (hnd : (l.map key).Nodup) (hq : q ∈ l) (hid : key a = key q) :
    (((l.map fun x => if key x = key a then a else x).map g).sum : ℚ)
      = (l.map g).sum - g q + g a := by
  induction l with
  | nil => cases hq
  | cons x t ih =>
    rw [List.map_cons, List.nodup_cons] at hnd
    rcases List.mem_cons.mp hq with rfl | hqt
    · rw [List.map_cons, if_pos hid.symm]
      have ht : (t.map fun y => if key y = key a then a else y) = t := by
        refine replace_map_id key t a fun y hy hk => hnd.1 ?_
        rw [← hid, ← hk]
        exact List.mem_map.mpr ⟨y, hy, rfl⟩
      rw [ht]
      simp only [List.map_cons, List.sum_cons]
      ring
    · have hxq : key x ≠ key a := by
        rw [hid]
        intro hk
        exact hnd.1 (hk ▸ List.mem_map.mpr ⟨q, hqt, rfl⟩)
      rw [List.map_cons, if_neg hxq]
      simp only [List.map_cons, List.sum_cons]
      rw [ih hnd.2 hqt]
      ring

theorem sum_map_storeBy (l : List α) (a q : α)
    (hnd : (l.map key).Nodup) (hq : q ∈ l) (hid : key a = key q) :
    (((storeBy key l a).map g).sum : ℚ) = (l.map g).sum - g q + g a := by
  rw [storeBy_eq_replace key l a q hq hid]
  exact sum_map_replace key g l a q hnd hq hid

theorem map_key_replace (l : List α) (a : α) :
    ((l.map fun x => if key x = key a then a else x).map key) = l.map key := by
  induction l with
  | nil => rfl
  | cons x t ih =>
    by_cases h : key x = key a
    · rw [List.map_cons, if_pos h, List.map_cons, ih, List.map_cons, h]
    · rw [List.map_cons, if_neg h, List.map_cons, ih, List.map_cons]

theorem storeBy_map_key (l : List α) (a q : α) (hq : q ∈ l)
    (hid : key a = key q) :
    (storeBy key l a).map key = l.map key := by
  rw [storeBy_eq_replace key l a q hq hid]
  exact map_key_replace key l a

theorem mem_storeBy (l : List α) (a x : α) (hx : x ∈ storeBy key l a) :
    x ∈ l ∨ x = a := by
  unfold storeBy at hx
  split at hx
  · obtain ⟨y, hy, hxy⟩ := List.mem_map.mp hx
    by_cases h : key y = key a
    · rw [if_pos h] at hxy; exact .inr hxy.symm
    · rw [if_neg h] at hxy; exact .inl (hxy ▸ hy)
  · rcases List.mem_append.mp hx with h | h
    · exact .inl h
    · exact .inr (List.mem_singleton.mp h)

theorem self_mem_storeBy (l : List α) (a : α) : a ∈ storeBy key l a := by
  unfold storeBy
  split
  · rename_i hany
    obtain ⟨q, hq, hk⟩ := List.any_eq_true.mp hany
    exact List.mem_map.mpr ⟨q, hq, by rw [if_pos (by simpa using hk)]⟩
  · exact List.mem_append.mpr (.inr (List.mem_singleton.mpr rfl))

end StoreBy

/-! Well-formedness of the engine's stores, and the margin invariant. -/

/-- Well-formed order store: distinct ids below the counter, and every
PENDING order is a limit order with positive quantity, leverage ≥ 1, and a
recorded margin equal to `quantity × price / leverage` (non-negative). -/
def WFov (os : List PaperOrder) (n : ℕ) : Prop :=
  (os.map (·.order_id)).Nodup ∧ (∀ o ∈ os, o.order_id < n) ∧
  (∀ o ∈ os, o.status = .PENDING →
    o.order_type = "LIMIT" ∧ 0 < o.quantity ∧ 1 ≤ o.leverage ∧
    0 ≤ o.margin_used ∧
    ∃ p, o.price = some p ∧
      o.margin_used = o.quantity * p / (o.leverage : ℚ))

/-- Well-formed position store: distinct ids below the counter, and every
OPEN position has positive quantity. -/
def WFpv (ps : List PaperPosition) (n : ℕ) : Prop :=
  (ps.map (·.position_id)).Nodup ∧ (∀ p ∈ ps, p.position_id < n) ∧
  (∀ p ∈ ps, p.status = .OPEN → 0 < p.quantity)

/-- The engine invariant: well-formed stores, and `locked_margin` equal to
the open-position margin total plus the pending-limit-order margin total. -/
def Inv (st : EngineState) : Prop :=
  WFov st.orders st.next_id ∧ WFpv st.positions st.next_id ∧
  st.wallet.locked_margin =
    open_margin_sum st.positions + pending_margin_sum st.orders

theorem WFov_mono {os : List PaperOrder} {n n' : ℕ} (h : WFov os n)
    (hle : n ≤ n') : WFov os n' :=
  ⟨h.1, fun o ho => lt_of_lt_of_le (h.2.1 o ho) hle, h.2.2⟩

theorem WFpv_mono {ps : List PaperPosition} {n n' : ℕ} (h : WFpv ps n)
    (hle : n ≤ n') : WFpv ps n' :=
  ⟨h.1, fun p hp => lt_of_lt_of_le (h.2.1 p hp) hle, h.2.2⟩

theorem findOrder_spec {os : List PaperOrder} {oid : Nat} {o : PaperOrder}
    (h : findOrder os oid = some o) : o ∈ os ∧ o.order_id = oid := by
  refine ⟨List.mem_of_find?_eq_some h, ?_⟩
  have := List.find?_some h
  simpa using this

theorem find_position_spec {st : EngineState} {symbol side : String}
    {p : PaperPosition} (h : st.find_position symbol side = some p) :
    p ∈ st.positions ∧ p.symbol = symbol ∧ p.side = side ∧
      p.status = .OPEN := by
  have hm := List.mem_of_find?_eq_some h
  have hp := List.find?_some h
  simp only [Bool.and_eq_true, decide_eq_true_eq] at hp
  exact ⟨hm, hp.1.1, hp.1.2, hp.2⟩

theorem findPosition_spec {ps : List PaperPosition} {pid : Nat}
    {p : PaperPosition} (h : findPosition ps pid = some p) :
    p ∈ ps ∧ p.position_id = pid := by
  refine ⟨List.mem_of_find?_eq_some h, ?_⟩
  have := List.find?_some h
  simpa using this

theorem close_position_internal_orders (st : EngineState) (p : PaperPosition)
    (price : ℚ) (r : CloseReason) (now : ℕ) :
    (close_position_internal st p price r now).1.orders = st.orders := by
  simp only [close_position_internal]
  split <;> rfl

theorem close_position_internal_next_id_ge (st : EngineState)
    (p : PaperPosition) (price : ℚ) (r : CloseReason) (now : ℕ) :
    st.next_id ≤ (close_position_internal st p price r now).1.next_id := by
  simp only [close_position_internal, EngineState.fresh]
  split
  · exact le_refl _
  · exact Nat.le_succ _

/-- Closing an open stored position preserves the engine invariant (in
both the completing and the `pnl_percent`-raising branch). -/
theorem Inv_close_position_internal {st : EngineState} {p : PaperPosition}
    (price : ℚ) (r : CloseReason) (now : ℕ)
    (hInv : Inv st) (hmem : p ∈ st.positions) (hopen : p.status = .OPEN) :
    Inv (close_position_internal st p price r now).1 := by
  obtain ⟨hord, hpos, hsum⟩ := hInv
  have hng := close_position_internal_next_id_ge st p price r now
  have hmargin : posContrib p = p.margin := by simp [posContrib, hopen]
  have hclosed : posContrib ((p.close price r now).1) = 0 := by
    simp [posContrib, PaperPosition.close]
  have hsum' : open_margin_sum
      (storePosition st.positions ((p.close price r now).1)) =
      open_margin_sum st.positions - posContrib p +
        posContrib ((p.close price r now).1) := by
    unfold storePosition open_margin_sum
    exact sum_map_storeBy _ posContrib st.positions _ p hpos.1 hmem rfl
  refine ⟨?_, ?_, ?_⟩
  · rw [close_position_internal_orders]
    exact WFov_mono hord hng
  · rw [close_position_internal_positions]
    refine ⟨?_, ?_, ?_⟩
    · rw [show storePosition st.positions ((p.close price r now).1) =
          storeBy (fun x : PaperPosition => x.position_id) st.positions
            ((p.close price r now).1) from rfl,
        storeBy_map_key (fun x : PaperPosition => x.position_id) st.positions
          ((p.close price r now).1) p hmem rfl]
      exact hpos.1
    · intro x hx
      rcases mem_storePosition _ _ _ hx with h | h
      · exact lt_of_lt_of_le (hpos.2.1 x h) hng
      · rw [h]
        exact lt_of_lt_of_le (hpos.2.1 p hmem) hng
    · intro x hx hxo
      rcases mem_storePosition _ _ _ hx with h | h
      · exact hpos.2.2 x h hxo
      · rw [h] at hxo
        simp [PaperPosition.close] at hxo
  · rw [close_position_internal_positions, close_position_internal_orders,
      close_position_internal_wallet]
    simp only [hsum', hmargin, hclosed]
    linarith

/-- Appending a fresh-keyed element keeps the key list duplicate-free. -/
theorem nodup_map_append {α : Type} (key : α → Nat) (l : List α) (a : α)
    (hnd : (l.map key).Nodup) (hfresh : ∀ x ∈ l, key x ≠ key a) :
    ((l ++ [a]).map key).Nodup := by
  rw [List.map_append, List.map_singleton]
  refine List.Nodup.append hnd (List.nodup_singleton _) ?_
  intro x hx hxa
  obtain ⟨y, hy, rfl⟩ := List.mem_map.mp hx
  exact hfresh y hy (List.mem_singleton.mp hxa)

/-- Appending a position adds its contribution to the open-margin total. -/
theorem open_margin_sum_append (ps : List PaperPosition) (p : PaperPosition) :
    open_margin_sum (ps ++ [p]) = open_margin_sum ps + posContrib p := by
  simp [open_margin_sum]

/-- Appending an order adds its contribution to the pending-margin total. -/
theorem pending_margin_sum_append (os : List PaperOrder) (o : PaperOrder) :
    pending_margin_sum (os ++ [o]) = pending_margin_sum os + ordContrib o := by
  simp [pending_margin_sum]

/-- `apply_risk_prices` only touches the SL/TP/liquidation price fields. -/
theorem apply_risk_prices_spec (order : PaperOrder) (p : PaperPosition) :
    (apply_risk_prices order p).position_id = p.position_id ∧
    (apply_risk_prices order p).margin = p.margin ∧
    (apply_risk_prices order p).status = p.status ∧
    (apply_risk_prices order p).quantity = p.quantity := by
  simp only [apply_risk_prices]
  split <;> split <;> exact ⟨rfl, rfl, rfl, rfl⟩

/-- With no open position on either side, `_handle_position_for_order`
creates a fresh position. -/
theorem handle_create_eq (st : EngineState) (order : PaperOrder)
    (price : ℚ) (now : ℕ)
    (hsame : st.find_position order.symbol order.side = none)
    (hopp : st.find_position order.symbol (opposite_side order.side) = none) :
    handle_position_for_order st order price now =
      ((create_position st order price now).1,
       .ok (some (create_position st order price now).2), false) := by
  simp only [handle_position_for_order, hsame, hopp]

/-- The position produced by `_average_into_position`. -/
def avg_position (position : PaperPosition) (order : PaperOrder)
    (execution_price : ℚ) : PaperPosition :=
  let p' := { position with
      quantity := position.quantity + order.quantity,
      entry_price := (position.quantity * position.entry_price +
        order.quantity * execution_price) /
        (position.quantity + order.quantity),
      margin := position.margin + order.margin_used }
  { p' with liquidation_price := p'.calculate_liquidation_price }

theorem average_into_position_eq (st : EngineState) (position : PaperPosition)
    (order : PaperOrder) (price : ℚ) (now : ℕ)
    (hnz : position.quantity + order.quantity ≠ 0) :
    average_into_position st position order price now =
      ({ st with positions := (storePosition st.positions
          (avg_position position order price)) },
       .ok (avg_position position order price)) := by
  simp only [average_into_position, avg_position]
  rw [if_neg hnz]

/-- With a same-side open position present, `_handle_position_for_order`
averages into it (when the combined quantity is nonzero). -/
theorem handle_average_eq (st : EngineState) (order : PaperOrder)
    (price : ℚ) (now : ℕ) (e : PaperPosition)
    (hsame : st.find_position order.symbol order.side = some e)
    (hnz : e.quantity + order.quantity ≠ 0) :
    handle_position_for_order st order price now =
      ({ st with positions := (storePosition st.positions
          (avg_position e order price)) },
       .ok (some (avg_position e order price)), false) := by
  simp only [handle_position_for_order, hsame,
    average_into_position_eq st e order price now hnz]

/-- With only an opposite-side open position, the netting ghost flag is set. -/
theorem handle_netted_of_opposite (st : EngineState) (order : PaperOrder)
    (price : ℚ) (now : ℕ) (o : PaperPosition)
    (hsame : st.find_position order.symbol order.side = none)
    (hopp : st.find_position order.symbol (opposite_side order.side) = some o) :
    (handle_position_for_order st order price now).2.2 = true := by
  simp only [handle_position_for_order, hsame, hopp]

/-- `finish_execute_order` passes the netting flag of
`_handle_position_for_order` through unchanged. -/
theorem finish_netted_eq (st : EngineState) (order : PaperOrder)
    (price fee m : ℚ) (now : ℕ) :
    (finish_execute_order st order price fee m now).2.2 =
      (handle_position_for_order st
        { order with fee_paid := fee, margin_used := m } price now).2.2 := by
  simp only [finish_execute_order]
  rcases hh : handle_position_for_order st
      { order with fee_paid := fee, margin_used := m } price now
    with ⟨st', res, flag⟩
  cases res with
  | error e => rfl
  | ok po => cases po <;> rfl

/-- The fresh position built by `_create_position` for an order whose
recorded margin is `m`. -/
def market_new_position (st : EngineState) (order : PaperOrder)
    (price m : ℚ) (now : ℕ) : PaperPosition :=
  { position_id := st.next_id, symbol := order.symbol, side := order.side,
    status := .OPEN, quantity := order.quantity, entry_price := price,
    leverage := order.leverage, margin := m, opened_at := now }

theorem create_position_eq (st : EngineState) (order : PaperOrder)
    (price : ℚ) (now : ℕ) :
    create_position st order price now =
      ({ st with
          next_id := st.next_id + 1,
          positions := (st.positions ++
            [market_new_position st order price order.margin_used now]) },
       market_new_position st order price order.margin_used now) := rfl

/-- The state components of `finish_execute_order` in the fresh-position
case: the new position (then its SL/TP-adjusted copy) is stored, the filled
order replaces/concatenates under its id, the wallet is untouched, and two
ids are drawn (position and trade). -/
theorem finish_create_spec (st : EngineState) (order : PaperOrder)
    (price fee m : ℚ) (now : ℕ)
    (hsame : st.find_position order.symbol order.side = none)
    (hopp : st.find_position order.symbol (opposite_side order.side) = none) :
    (finish_execute_order st order price fee m now).1.positions
        = (storePosition
            (st.positions ++ [market_new_position st order price m now])
            (apply_risk_prices { order with fee_paid := fee, margin_used := m }
              (market_new_position st order price m now))) ∧
    (finish_execute_order st order price fee m now).1.orders
        = (storeOrder st.orders
            (PaperOrder.fill { order with fee_paid := fee, margin_used := m }
              price
              (some (apply_risk_prices
                { order with fee_paid := fee, margin_used := m }
                (market_new_position st order price m now)).position_id)
              now)) ∧
    (finish_execute_order st order price fee m now).1.wallet = st.wallet ∧
    (finish_execute_order st order price fee m now).1.next_id
        = st.next_id + 2 := by
  have hh := handle_create_eq st
    { order with fee_paid := fee, margin_used := m } price now hsame hopp
  simp only [finish_execute_order, hh]
  exact ⟨rfl, rfl, rfl, rfl⟩

/-- The state components of `finish_execute_order` in the same-side
averaging case. -/
theorem finish_average_spec (st : EngineState) (order : PaperOrder)
    (price fee m : ℚ) (now : ℕ) (e : PaperPosition)
    (hsame : st.find_position order.symbol order.side = some e)
    (hnz : e.quantity + order.quantity ≠ 0) :
    (finish_execute_order st order price fee m now).1.positions
        = (storePosition
            (storePosition st.positions
              (avg_position e { order with fee_paid := fee, margin_used := m }
                price))
            (apply_risk_prices { order with fee_paid := fee, margin_used := m }
              (avg_position e { order with fee_paid := fee, margin_used := m }
                price))) ∧
    (finish_execute_order st order price fee m now).1.orders
        = (storeOrder st.orders
            (PaperOrder.fill { order with fee_paid := fee, margin_used := m }
              price
              (some (apply_risk_prices
                { order with fee_paid := fee, margin_used := m }
                (avg_position e
                  { order with fee_paid := fee, margin_used := m }
                  price)).position_id)
              now)) ∧
    (finish_execute_order st order price fee m now).1.wallet = st.wallet ∧
    (finish_execute_order st order price fee m now).1.next_id
        = st.next_id + 1 := by
  have hh := handle_average_eq st
    { order with fee_paid := fee, margin_used := m } price now e hsame hnz
  simp only [finish_execute_order, hh]
  exact ⟨rfl, rfl, rfl, rfl⟩

/-- Storing a non-PENDING order under a fresh id preserves order-store
well-formedness and the pending-margin total. -/
theorem store_order_fresh {os : List PaperOrder} {n : ℕ} (hWFo : WFov os n)
    (F : PaperOrder) (hFst : F.status ≠ .PENDING) (hFid : F.order_id < n)
    (hfresh : ∀ o ∈ os, o.order_id ≠ F.order_id) :
    WFov (storeOrder os F) n ∧
    pending_margin_sum (storeOrder os F) = pending_margin_sum os := by
  have hcF : ordContrib F = 0 := by
    unfold ordContrib
    rw [if_neg]
    intro hc
    exact hFst hc.1
  have happ : storeOrder os F = os ++ [F] :=
    storeBy_eq_append (fun x : PaperOrder => x.order_id) os F hfresh
  constructor
  · refine ⟨?_, ?_, ?_⟩
    · rw [happ]
      exact nodup_map_append _ os F hWFo.1 hfresh
    · intro o ho
      rw [happ] at ho
      rcases List.mem_append.mp ho with h | h
      · exact hWFo.2.1 o h
      · rw [List.mem_singleton.mp h]
        exact hFid
    · intro o ho hP
      rw [happ] at ho
      rcases List.mem_append.mp ho with h | h
      · exact hWFo.2.2 o h hP
      · rw [List.mem_singleton.mp h] at hP
        exact absurd hP hFst
  · rw [happ, pending_margin_sum_append, hcF, add_zero]

/-- Replacing a stored order by a non-PENDING one with the same id
preserves well-formedness and removes the old contribution from the
pending-margin total. -/
theorem store_order_replace {os : List PaperOrder} {n : ℕ} (hWFo : WFov os n)
    (F q : PaperOrder) (hq : q ∈ os) (hid : F.order_id = q.order_id)
    (hFst : F.status ≠ .PENDING) :
    WFov (storeOrder os F) n ∧
    pending_margin_sum (storeOrder os F)
      = pending_margin_sum os - ordContrib q := by
  have hcF : ordContrib F = 0 := by
    unfold ordContrib
    rw [if_neg]
    intro hc
    exact hFst hc.1
  constructor
  · refine ⟨?_, ?_, ?_⟩
    · rw [show storeOrder os F
          = storeBy (fun x : PaperOrder => x.order_id) os F from rfl,
        storeBy_map_key (fun x : PaperOrder => x.order_id) os F q hq hid]
      exact hWFo.1
    · intro o ho
      rcases mem_storeBy (fun x : PaperOrder => x.order_id) os F o ho with h | h
      · exact hWFo.2.1 o h
      · rw [h, hid]
        exact hWFo.2.1 q hq
    · intro o ho hP
      rcases mem_storeBy (fun x : PaperOrder => x.order_id) os F o ho with h | h
      · exact hWFo.2.2 o h hP
      · rw [h] at hP
        exact absurd hP hFst
  · rw [show pending_margin_sum (storeOrder os F)
        = ((storeBy (fun x : PaperOrder => x.order_id) os F).map
            ordContrib).sum from rfl,
      sum_map_storeBy (fun x : PaperOrder => x.order_id) ordContrib os F q
        hWFo.1 hq hid, hcF, add_zero]
    rfl

/-- `finish_execute_order` preserves the margin accounting when no netting
occurs, provided the order is either a fresh one whose margin `m` was just
added to `locked_margin` (the market path) or a stored pending limit order
whose recorded margin `m` is already part of the pending total (the limit
fill path). -/
theorem Inv_finish_execute_order {st : EngineState} {order : PaperOrder}
    {price fee m : ℚ} {now : ℕ}
    (hWFo : WFov st.orders st.next_id)
    (hWFp : WFpv st.positions st.next_id)
    (hq : 0 < order.quantity)
    (hcase :
      ((∀ o ∈ st.orders, o.order_id ≠ order.order_id) ∧
        order.order_id < st.next_id ∧
        st.wallet.locked_margin =
          open_margin_sum st.positions + pending_margin_sum st.orders + m) ∨
      (order ∈ st.orders ∧ order.status = .PENDING ∧
        order.order_type = "LIMIT" ∧ order.margin_used = m ∧
        st.wallet.locked_margin =
          open_margin_sum st.positions + pending_margin_sum st.orders))
    (hnet : (finish_execute_order st order price fee m now).2.2 = false) :
    Inv (finish_execute_order st order price fee m now).1 := by
  have hcord : order ∈ st.orders → order.status = .PENDING →
      order.order_type = "LIMIT" → order.margin_used = m →
      ordContrib order = m := by
    intro _ h1 h2 h3
    unfold ordContrib
    rw [if_pos ⟨h1, h2⟩, h3]
  rcases hsame : st.find_position order.symbol order.side with _ | e
  · rcases hopp : st.find_position order.symbol
        (opposite_side order.side) with _ | o
    · -- fresh-position case
      obtain ⟨hpos, hord, hwal, hnid⟩ :=
        finish_create_spec st order price fee m now hsame hopp
      have hP₂ := apply_risk_prices_spec
        { order with fee_paid := fee, margin_used := m }
        (market_new_position st order price m now)
      have hfreshN : ∀ x ∈ st.positions, x.position_id ≠
          (market_new_position st order price m now).position_id := by
        intro x hx h
        exact absurd (h ▸ hWFp.2.1 x hx) (lt_irrefl _)
      have hndA : ((st.positions ++ [market_new_position st order price m now]).map
          (fun x : PaperPosition => x.position_id)).Nodup :=
        nodup_map_append _ st.positions _ hWFp.1 hfreshN
      have hNmem : market_new_position st order price m now ∈
          st.positions ++ [market_new_position st order price m now] :=
        List.mem_append.mpr (.inr (List.mem_singleton.mpr rfl))
      have hcN : posContrib (market_new_position st order price m now) = m := by
        simp [posContrib, market_new_position]
      have hcP₂ : posContrib (apply_risk_prices
          { order with fee_paid := fee, margin_used := m }
          (market_new_position st order price m now)) = m := by
        unfold posContrib
        simp only [hP₂.2.2.1, hP₂.2.1]
        exact hcN
      have hopen : open_margin_sum ((finish_execute_order st order price fee m
          now).1.positions) = open_margin_sum st.positions + m := by
        rw [hpos]
        rw [show open_margin_sum (storePosition
              (st.positions ++ [market_new_position st order price m now])
              (apply_risk_prices { order with fee_paid := fee, margin_used := m }
                (market_new_position st order price m now)))
            = ((storeBy (fun x : PaperPosition => x.position_id)
                (st.positions ++ [market_new_position st order price m now])
                (apply_risk_prices { order with fee_paid := fee, margin_used := m }
                  (market_new_position st order price m now))).map
                posContrib).sum from rfl,
          sum_map_storeBy (fun x : PaperPosition => x.position_id) posContrib
            (st.positions ++ [market_new_position st order price m now])
            _ _ hndA hNmem hP₂.1,
          show ((st.positions ++ [market_new_position st order price m now]).map
              posContrib).sum
            = open_margin_sum (st.positions ++
                [market_new_position st order price m now]) from rfl,
          open_margin_sum_append, hcN, hcP₂]
        ring
      have hWFp' : WFpv ((finish_execute_order st order price fee m
          now).1.positions) (st.next_id + 2) := by
        rw [hpos]
        refine ⟨?_, ?_, ?_⟩
        · rw [show storePosition
              (st.positions ++ [market_new_position st order price m now])
              (apply_risk_prices { order with fee_paid := fee, margin_used := m }
                (market_new_position st order price m now))
            = storeBy (fun x : PaperPosition => x.position_id)
                (st.positions ++ [market_new_position st order price m now])
                (apply_risk_prices { order with fee_paid := fee, margin_used := m }
                  (market_new_position st order price m now)) from rfl,
            storeBy_map_key (fun x : PaperPosition => x.position_id)
              (st.positions ++ [market_new_position st order price m now])
              _ _ hNmem hP₂.1]
          exact hndA
        · intro x hx
          rcases mem_storeBy (fun y : PaperPosition => y.position_id)
              (st.positions ++ [market_new_position st order price m now])
              _ x hx with h | h
          · rcases List.mem_append.mp h with h' | h'
            · exact (hWFp.2.1 x h').trans_le (by omega)
            · rw [List.mem_singleton.mp h']
              exact (by omega : st.next_id < st.next_id + 2)
          · rw [h, hP₂.1]
            exact (by omega : st.next_id < st.next_id + 2)
        · intro x hx hxo
          rcases mem_storeBy (fun y : PaperPosition => y.position_id)
              (st.positions ++ [market_new_position st order price m now])
              _ x hx with h | h
          · rcases List.mem_append.mp h with h' | h'
            · exact hWFp.2.2 x h' hxo
            · rw [List.mem_singleton.mp h']
              exact hq
          · rw [h, hP₂.2.2.2]
            exact hq
      rcases hcase with ⟨hfresh, hidlt, hsum⟩ |
        ⟨hmem, hpend, hlim, hmarg, hsum⟩
      · obtain ⟨hWFo', hpendsum⟩ := store_order_fresh
          (WFov_mono hWFo (by omega : st.next_id ≤ st.next_id + 2))
          (PaperOrder.fill { order with fee_paid := fee, margin_used := m }
            price (some (apply_risk_prices
              { order with fee_paid := fee, margin_used := m }
              (market_new_position st order price m now)).position_id) now)
          (by simp [PaperOrder.fill])
          (by exact hidlt.trans_le (by omega))
          (by exact hfresh)
        refine ⟨?_, ?_, ?_⟩
        · rw [hord, hnid]
          exact hWFo'
        · rw [hnid]
          exact hWFp'
        · rw [hwal, hopen, hord, hpendsum, hsum]
          ring
      · obtain ⟨hWFo', hpendsum⟩ := store_order_replace
          (WFov_mono hWFo (by omega : st.next_id ≤ st.next_id + 2))
          (PaperOrder.fill { order with fee_paid := fee, margin_used := m }
            price (some (apply_risk_prices
              { order with fee_paid := fee, margin_used := m }
              (market_new_position st order price m now)).position_id) now)
          order hmem rfl (by simp [PaperOrder.fill])
        refine ⟨?_, ?_, ?_⟩
        · rw [hord, hnid]
          exact hWFo'
        · rw [hnid]
          exact hWFp'
        · rw [hwal, hopen, hord, hpendsum, hcord hmem hpend hlim hmarg, hsum]
          ring
    · -- netting case: contradicts the no-netting hypothesis
      rw [finish_netted_eq st order price fee m now,
        handle_netted_of_opposite st
          { order with fee_paid := fee, margin_used := m }
          price now o hsame hopp] at hnet
      exact absurd hnet (by decide)
  · -- same-side averaging case
    have hfs := find_position_spec hsame
    have hepos : 0 < e.quantity := hWFp.2.2 e hfs.1 hfs.2.2.2
    have hnz : e.quantity + order.quantity ≠ 0 :=
      ne_of_gt (add_pos hepos hq)
    obtain ⟨hpos, hord, hwal, hnid⟩ :=
      finish_average_spec st order price fee m now e hsame hnz
    have hP₂ := apply_risk_prices_spec
      { order with fee_paid := fee, margin_used := m }
      (avg_position e { order with fee_paid := fee, margin_used := m } price)
    have hAid : (avg_position e
        { order with fee_paid := fee, margin_used := m } price).position_id
        = e.position_id := rfl
    have hAst : (avg_position e
        { order with fee_paid := fee, margin_used := m } price).status
        = e.status := rfl
    have hAm : (avg_position e
        { order with fee_paid := fee, margin_used := m } price).margin
        = e.margin + m := rfl
    have hAq : (avg_position e
        { order with fee_paid := fee, margin_used := m } price).quantity
        = e.quantity + order.quantity := rfl
    have hcA : posContrib (avg_position e
        { order with fee_paid := fee, margin_used := m } price)
        = e.margin + m := by
      unfold posContrib
      rw [hAst, if_pos hfs.2.2.2, hAm]
    have hce : posContrib e = e.margin := by
      unfold posContrib
      rw [if_pos hfs.2.2.2]
    have hcP₂ : posContrib (apply_risk_prices
        { order with fee_paid := fee, margin_used := m }
        (avg_position e { order with fee_paid := fee, margin_used := m } price))
        = e.margin + m := by
      unfold posContrib
      simp only [hP₂.2.2.1, hP₂.2.1]
      exact hcA
    have hnd₁ : ((storePosition st.positions (avg_position e
        { order with fee_paid := fee, margin_used := m } price)).map
        (fun x : PaperPosition => x.position_id)).Nodup := by
      rw [show storePosition st.positions (avg_position e
            { order with fee_paid := fee, margin_used := m } price)
          = storeBy (fun x : PaperPosition => x.position_id) st.positions
            (avg_position e { order with fee_paid := fee, margin_used := m }
              price) from rfl,
        storeBy_map_key (fun x : PaperPosition => x.position_id) st.positions
          _ e hfs.1 hAid]
      exact hWFp.1
    have hAmem : avg_position e
        { order with fee_paid := fee, margin_used := m } price ∈
        storePosition st.positions (avg_position e
          { order with fee_paid := fee, margin_used := m } price) :=
      self_mem_storeBy (fun x : PaperPosition => x.position_id) st.positions _
    have hopen : open_margin_sum ((finish_execute_order st order price fee m
        now).1.positions) = open_margin_sum st.positions + m := by
      rw [hpos]
      rw [show open_margin_sum (storePosition
            (storePosition st.positions (avg_position e
              { order with fee_paid := fee, margin_used := m } price))
            (apply_risk_prices { order with fee_paid := fee, margin_used := m }
              (avg_position e { order with fee_paid := fee, margin_used := m }
                price)))
          = ((storeBy (fun x : PaperPosition => x.position_id)
              (storePosition st.positions (avg_position e
                { order with fee_paid := fee, margin_used := m } price))
              (apply_risk_prices { order with fee_paid := fee, margin_used := m }
                (avg_position e { order with fee_paid := fee, margin_used := m }
                  price))).map posContrib).sum from rfl,
        sum_map_storeBy (fun x : PaperPosition => x.position_id) posContrib
          (storePosition st.positions (avg_position e
            { order with fee_paid := fee, margin_used := m } price))
          _ _ hnd₁ hAmem hP₂.1,
        show ((storePosition st.positions (avg_position e
            { order with fee_paid := fee, margin_used := m } price)).map
            posContrib).sum
          = ((storeBy (fun x : PaperPosition => x.position_id) st.positions
              (avg_position e { order with fee_paid := fee, margin_used := m }
                price)).map posContrib).sum from rfl,
        sum_map_storeBy (fun x : PaperPosition => x.position_id) posContrib
          st.positions _ e hWFp.1 hfs.1 hAid,
        hcA, hcP₂, hce]
      rw [show (st.positions.map posContrib).sum
          = open_margin_sum st.positions from rfl]
      ring
    have hWFp' : WFpv ((finish_execute_order st order price fee m
        now).1.positions) (st.next_id + 1) := by
      rw [hpos]
      refine ⟨?_, ?_, ?_⟩
      · rw [show storePosition
            (storePosition st.positions (avg_position e
              { order with fee_paid := fee, margin_used := m } price))
            (apply_risk_prices { order with fee_paid := fee, margin_used := m }
              (avg_position e { order with fee_paid := fee, margin_used := m }
                price))
          = storeBy (fun x : PaperPosition => x.position_id)
              (storePosition st.positions (avg_position e
                { order with fee_paid := fee, margin_used := m } price))
              (apply_risk_prices { order with fee_paid := fee, margin_used := m }
                (avg_position e { order with fee_paid := fee, margin_used := m }
                  price)) from rfl,
          storeBy_map_key (fun x : PaperPosition => x.position_id)
            (storePosition st.positions (avg_position e
              { order with fee_paid := fee, margin_used := m } price))
            _ _ hAmem hP₂.1]
        exact hnd₁
      · intro x hx
        rcases mem_storeBy (fun y : PaperPosition => y.position_id)
            (storePosition st.positions (avg_position e
              { order with fee_paid := fee, margin_used := m } price))
            _ x hx with h | h
        · rcases mem_storePosition st.positions _ x h with h' | h'
          · exact (hWFp.2.1 x h').trans_le (by omega)
          · rw [h', hAid]
            exact (hWFp.2.1 e hfs.1).trans_le (by omega)
        · rw [h, hP₂.1, hAid]
          exact (hWFp.2.1 e hfs.1).trans_le (by omega)
      · intro x hx hxo
        rcases mem_storeBy (fun y : PaperPosition => y.position_id)
            (storePosition st.positions (avg_position e
              { order with fee_paid := fee, margin_used := m } price))
            _ x hx with h | h
        · rcases mem_storePosition st.positions _ x h with h' | h'
          · exact hWFp.2.2 x h' hxo
          · rw [h', hAq]
            exact add_pos hepos hq
        · rw [h, hP₂.2.2.2, hAq]
          exact add_pos hepos hq
    rcases hcase with ⟨hfresh, hidlt, hsum⟩ |
      ⟨hmem, hpend, hlim, hmarg, hsum⟩
    · obtain ⟨hWFo', hpendsum⟩ := store_order_fresh
        (WFov_mono hWFo (by omega : st.next_id ≤ st.next_id + 1))
        (PaperOrder.fill { order with fee_paid := fee, margin_used := m }
          price (some (apply_risk_prices
            { order with fee_paid := fee, margin_used := m }
            (avg_position e { order with fee_paid := fee, margin_used := m }
              price)).position_id) now)
        (by simp [PaperOrder.fill])
        (by exact hidlt.trans_le (by omega))
        (by exact hfresh)
      refine ⟨?_, ?_, ?_⟩
      · rw [hord, hnid]
        exact hWFo'
      · rw [hnid]
        exact hWFp'
      · rw [hwal, hopen, hord, hpendsum, hsum]
        ring
    · obtain ⟨hWFo', hpendsum⟩ := store_order_replace
        (WFov_mono hWFo (by omega : st.next_id ≤ st.next_id + 1))
        (PaperOrder.fill { order with fee_paid := fee, margin_used := m }
          price (some (apply_risk_prices
            { order with fee_paid := fee, margin_used := m }
            (avg_position e { order with fee_paid := fee, margin_used := m }
              price)).position_id) now)
        order hmem rfl (by simp [PaperOrder.fill])
      refine ⟨?_, ?_, ?_⟩
      · rw [hord, hnid]
        exact hWFo'
      · rw [hnid]
        exact hWFp'
      · rw [hwal, hopen, hord, hpendsum, hcord hmem hpend hlim hmarg, hsum]
        ring

/-- `_execute_order` preserves the margin accounting when no netting
occurs, for a fresh market order or a stored pending limit order executed
at its limit price. -/
theorem Inv_execute_order {st : EngineState} {order : PaperOrder}
    {price : ℚ} {now : ℕ}
    (hInv : Inv st)
    (hq : 0 < order.quantity)
    (hcase :
      (order.order_type = "MARKET" ∧
        (∀ o ∈ st.orders, o.order_id ≠ order.order_id) ∧
        order.order_id < st.next_id) ∨
      (order ∈ st.orders ∧ order.status = .PENDING ∧
        order.price = some price))
    (hnet : (execute_order st order price now).2.2 = false) :
    Inv (execute_order st order price now).1 := by
  obtain ⟨hWFo, hWFp, hsum⟩ := hInv
  by_cases hlev : order.leverage = 0
  · simp only [execute_order, if_pos hlev]
    exact ⟨hWFo, hWFp, hsum⟩
  · simp only [execute_order, if_neg hlev] at hnet ⊢
    by_cases hmkt : order.order_type = "MARKET"
    · rw [if_pos hmkt] at hnet ⊢
      have hmk : (∀ o ∈ st.orders, o.order_id ≠ order.order_id) ∧
          order.order_id < st.next_id := by
        rcases hcase with ⟨_, hf, hlt⟩ | ⟨hmem, hpend, _⟩
        · exact ⟨hf, hlt⟩
        · exfalso
          have h := (hWFo.2.2 order hmem hpend).1
          rw [hmkt] at h
          exact absurd h (by decide)
      by_cases hro : (order.reduce_only &&
          (st.find_position order.symbol order.side).isNone) = true
      · rw [if_pos hro] at hnet ⊢
        rcases hopp : st.find_position order.symbol
            (opposite_side order.side) with _ | pos
        · simp only [hopp]
          exact ⟨hWFo, hWFp, hsum⟩
        · simp only [hopp] at hnet ⊢
          have hps := find_position_spec hopp
          have hInvCl : Inv (close_position_internal st pos price
              .MANUAL now).1 :=
            Inv_close_position_internal price .MANUAL now ⟨hWFo, hWFp, hsum⟩
              hps.1 hps.2.2.2
          have horders := close_position_internal_orders st pos price
            .MANUAL now
          have hng := close_position_internal_next_id_ge st pos price
            .MANUAL now
          rcases hcl : close_position_internal st pos price .MANUAL now
            with ⟨st', res⟩
          rw [hcl] at hInvCl horders hng
          obtain ⟨hWFo', hWFp', hsum'⟩ := hInvCl
          cases res with
          | error e => exact ⟨hWFo', hWFp', hsum'⟩
          | ok v =>
            obtain ⟨hWFo'', hpend''⟩ := store_order_fresh hWFo'
              (order.fill price (some pos.position_id) now)
              (by simp [PaperOrder.fill])
              (by exact lt_of_lt_of_le hmk.2 hng)
              (by rw [horders]; exact hmk.1)
            refine ⟨hWFo'', hWFp', ?_⟩
            rw [hpend'', horders]
            rw [horders] at hsum'
            exact hsum'
      · rw [if_neg hro] at hnet ⊢
        by_cases hin : st.wallet.available <
            order.quantity * price / (order.leverage : ℚ) +
              order.quantity * price * st.fee_rate
        · rw [if_pos hin] at hnet ⊢
          obtain ⟨hWFo'', hpend''⟩ := store_order_fresh hWFo
            { order with status := .REJECTED }
            (by simp)
            (by exact hmk.2)
            (by exact hmk.1)
          exact ⟨hWFo'', hWFp, by rw [hpend'']; exact hsum⟩
        · rw [if_neg hin] at hnet ⊢
          cases hlock : st.wallet.lock_margin
              (order.quantity * price / (order.leverage : ℚ)) with
          | error e =>
            exact ⟨hWFo, hWFp, hsum⟩
          | ok w =>
            rw [hlock] at hnet
            have hw : w.locked_margin = st.wallet.locked_margin +
                order.quantity * price / (order.leverage : ℚ) := by
              unfold PaperWallet.lock_margin at hlock
              split at hlock
              · exact absurd hlock (by simp)
              · injection hlock with h
                rw [← h]
            exact Inv_finish_execute_order hWFo hWFp hq
              (.inl ⟨hmk.1, hmk.2, by
                show (w.deduct_fee _).locked_margin = _
                unfold PaperWallet.deduct_fee
                rw [hw, hsum]⟩)
              hnet
    · rw [if_neg hmkt] at hnet ⊢
      rcases hcase with ⟨hm, _, _⟩ | ⟨hmem, hpend, hprice⟩
      · exact absurd hm hmkt
      · obtain ⟨hlim, hqp, hlev1, hmnn, plim, hplim, hmeq⟩ :=
          hWFo.2.2 order hmem hpend
        have hpp : plim = price := by
          rw [hplim] at hprice
          exact Option.some_injective ℚ hprice
        exact Inv_finish_execute_order hWFo hWFp hq
          (.inr ⟨hmem, hpend, hlim, by rw [hmeq, hpp], by
            show st.wallet.locked_margin = _
            unfold PaperWallet.deduct_fee
            exact hsum⟩)
          hnet

/-- A price feed whose quantity validator only passes positive quantities
(true of `MockPriceFeed`, which rejects `quantity <= 0`, and of live asset
metadata with a positive `min_quantity`). -/
def ValidFeed (feed : PriceFeed) : Prop :=
  ∀ s q, (feed.validate_quantity s q).1 = true → 0 < q

/-- `partial_close` on a position holding more than the closed quantity. -/
theorem partial_close_spec (p : PaperPosition) (q price : ℚ) (now : ℕ)
    (hlt : q < p.quantity) (hQ : p.quantity ≠ 0) :
    p.partial_close q price now =
      .ok ({ p with
              quantity := p.quantity - q,
              margin := p.margin * (1 - q / p.quantity),
              realized_pnl := (p.realized_pnl +
                p.calculate_unrealized_pnl price * (q / p.quantity)) },
           p.calculate_unrealized_pnl price * (q / p.quantity)) := by
  simp only [PaperPosition.partial_close]
  rw [if_neg (by exact not_lt.mpr hlt.le), if_neg hQ, if_neg]
  intro hc
  exact absurd (by linarith : p.quantity = q) (ne_of_gt hlt)

/-- `get_position` preserves the invariant, and a successfully returned
position is stored in the returned state. -/
theorem Inv_get_position {feed : PriceFeed} {st : EngineState} {pid : Nat}
    (hInv : Inv st) :
    Inv (get_position feed st pid).1 ∧
    (∀ p, (get_position feed st pid).2 = .ok p →
      p ∈ (get_position feed st pid).1.positions) := by
  obtain ⟨hWFo, hWFp, hsum⟩ := hInv
  rcases hf : findPosition st.positions pid with _ | position
  · simp only [get_position, hf]
    exact ⟨⟨hWFo, hWFp, hsum⟩, fun p hp => by cases hp⟩
  · simp only [get_position, hf]
    have hfs := findPosition_spec hf
    by_cases hopen : position.status = .OPEN
    · rw [if_pos hopen]
      cases hgp : feed.get_price position.symbol with
      | error e =>
        exact ⟨⟨hWFo, hWFp, hsum⟩, fun p hp => by
          injection hp with h
          rw [← h]
          exact hfs.1⟩
      | ok cp =>
        simp only []
        have hcu : posContrib (position.update_pnl cp) = posContrib position :=
          rfl
        refine ⟨⟨hWFo, ⟨?_, ?_, ?_⟩, ?_⟩, fun p hp => by
          injection hp with h
          rw [← h]
          exact self_mem_storeBy (fun x : PaperPosition => x.position_id)
            st.positions _⟩
        · simp only []
          rw [show storePosition st.positions (position.update_pnl cp)
              = storeBy (fun x : PaperPosition => x.position_id) st.positions
                (position.update_pnl cp) from rfl,
            storeBy_map_key (fun x : PaperPosition => x.position_id)
              st.positions (position.update_pnl cp) position hfs.1 rfl]
          exact hWFp.1
        · intro x hx
          rcases mem_storeBy (fun y : PaperPosition => y.position_id)
              st.positions _ x hx with h | h
          · exact hWFp.2.1 x h
          · rw [h]
            exact hWFp.2.1 position hfs.1
        · intro x hx hxo
          rcases mem_storeBy (fun y : PaperPosition => y.position_id)
              st.positions _ x hx with h | h
          · exact hWFp.2.2 x h hxo
          · rw [h]
            rw [h] at hxo
            exact hWFp.2.2 position hfs.1 hxo
        · simp only []
          rw [show open_margin_sum (storePosition st.positions
              (position.update_pnl cp))
              = ((storeBy (fun x : PaperPosition => x.position_id) st.positions
                  (position.update_pnl cp)).map posContrib).sum from rfl,
            sum_map_storeBy (fun x : PaperPosition => x.position_id) posContrib
              st.positions (position.update_pnl cp) position hWFp.1 hfs.1 rfl,
            hcu]
          rw [show (st.positions.map posContrib).sum
              = open_margin_sum st.positions from rfl]
          rw [hsum]
          ring
    · rw [if_neg hopen]
      exact ⟨⟨hWFo, hWFp, hsum⟩, fun p hp => by
        injection hp with h
        rw [← h]
        exact hfs.1⟩

/-- `cancel_order` preserves the margin accounting. -/
theorem Inv_cancel_order {st : EngineState} {oid : Nat} {now : ℕ}
    (hInv : Inv st) : Inv (cancel_order st oid now).1 := by
  obtain ⟨hWFo, hWFp, hsum⟩ := hInv
  rcases hf : findOrder st.orders oid with _ | order
  · simp only [cancel_order, hf]
    exact ⟨hWFo, hWFp, hsum⟩
  · simp only [cancel_order, hf]
    have hfs := findOrder_spec hf
    by_cases hFilled : order.status = .FILLED
    · rw [if_pos hFilled]
      exact ⟨hWFo, hWFp, hsum⟩
    · rw [if_neg hFilled]
      by_cases hPend : order.status ≠ .PENDING
      · rw [if_pos hPend]
        exact ⟨hWFo, hWFp, hsum⟩
      · rw [if_neg hPend]
        push_neg at hPend
        obtain ⟨hlim, hqp, hlev1, hmnn, pl, hpl, hmeq⟩ :=
          hWFo.2.2 order hfs.1 hPend
        obtain ⟨hWFo', hpend'⟩ := store_order_replace hWFo (order.cancel now)
          order hfs.1 rfl (by simp [PaperOrder.cancel])
        have hcord : ordContrib order = order.margin_used := by
          unfold ordContrib
          rw [if_pos ⟨hPend, hlim⟩]
        by_cases hm : order.margin_used > 0
        · rw [if_pos hm]
          refine ⟨hWFo', hWFp, ?_⟩
          show st.wallet.locked_margin - order.margin_used = _
          rw [hpend', hcord, hsum]
          ring
        · rw [if_neg hm]
          have hm0 : order.margin_used = 0 := le_antisymm (not_lt.mp hm) hmnn
          refine ⟨hWFo', hWFp, ?_⟩
          show st.wallet.locked_margin = _
          rw [hpend', hcord, hm0, hsum]
          ring

/-- `create_market_order` preserves the margin accounting when no netting
occurs, for a feed whose quantity validator only passes positive
quantities. -/
theorem Inv_create_market_order {feed : PriceFeed} {st : EngineState}
    {symbol side₀ : String} {q : ℚ} {lev : Nat} {sl tp : Option ℚ}
    {ro : Bool} {now : ℕ}
    (hInv : Inv st) (hfeed : ValidFeed feed)
    (hnet : (create_market_order feed st symbol side₀ q lev sl tp ro
      now).2.2 = false) :
    Inv (create_market_order feed st symbol side₀ q lev sl tp ro now).1 := by
  obtain ⟨hWFo, hWFp, hsum⟩ := hInv
  by_cases hside : ¬(py_upper side₀ = "LONG" ∨ py_upper side₀ = "SHORT")
  · simp only [create_market_order, if_pos hside]
    exact ⟨hWFo, hWFp, hsum⟩
  · simp only [create_market_order, if_neg hside] at hnet ⊢
    rcases hgp : feed.get_price symbol with e | cp
    · simp only [hgp]
      exact ⟨hWFo, hWFp, hsum⟩
    · simp only [hgp] at hnet ⊢
      rcases hvq : feed.validate_quantity symbol q with ⟨b1, msg1⟩
      rw [hvq] at hnet
      have hqp : b1 = true → 0 < q := fun hb =>
        hfeed symbol q (by rw [hvq, hb])
      cases b1 with
      | false => exact ⟨hWFo, hWFp, hsum⟩
      | true =>
        rcases hvl : feed.validate_leverage symbol lev with ⟨b2, msg2⟩
        rw [hvl] at hnet
        cases b2 with
        | false => exact ⟨hWFo, hWFp, hsum⟩
        | true =>
          simp only [] at hnet ⊢
          exact Inv_execute_order
            ⟨WFov_mono hWFo (Nat.le_succ _), WFpv_mono hWFp (Nat.le_succ _),
              hsum⟩
            (hqp rfl)
            (.inl ⟨rfl,
              fun o ho h => absurd (h ▸ hWFo.2.1 o ho) (lt_irrefl _),
              Nat.lt_succ_self _⟩)
            hnet

/-- The PENDING limit order built by `create_limit_order`. -/
def limit_new_order (st : EngineState) (symbol side : String) (q p : ℚ)
    (lev : Nat) (sl tp : Option ℚ) (ro : Bool) (now : ℕ) : PaperOrder :=
  { order_id := st.next_id, symbol := symbol, side := side,
    order_type := "LIMIT", quantity := q, price := some p, leverage := lev,
    status := .PENDING, stoploss_price := sl, takeprofit_price := tp,
    reduce_only := ro, margin_used := q * p / (lev : ℚ), created_at := now,
    expires_at := some (now + LIMIT_ORDER_EXPIRY_HOURS * 3600) }

/-- Storing a well-formed order under a fresh id preserves order-store
well-formedness and adds its contribution to the pending total. -/
theorem WFov_store_pending {os : List PaperOrder} {n : ℕ} (hWFo : WFov os n)
    (o : PaperOrder) (hfresh : ∀ x ∈ os, x.order_id ≠ o.order_id)
    (hid : o.order_id = n)
    (hpend : o.status = .PENDING → o.order_type = "LIMIT" ∧ 0 < o.quantity ∧
      1 ≤ o.leverage ∧ 0 ≤ o.margin_used ∧
      ∃ pr, o.price = some pr ∧
        o.margin_used = o.quantity * pr / (o.leverage : ℚ)) :
    WFov (storeOrder os o) (n + 1) ∧
    pending_margin_sum (storeOrder os o)
      = pending_margin_sum os + ordContrib o := by
  have happ : storeOrder os o = os ++ [o] :=
    storeBy_eq_append (fun x : PaperOrder => x.order_id) os o hfresh
  refine ⟨⟨?_, ?_, ?_⟩, ?_⟩
  · rw [happ]
    exact nodup_map_append _ os o hWFo.1 hfresh
  · intro x hx
    rw [happ] at hx
    rcases List.mem_append.mp hx with h | h
    · exact (hWFo.2.1 x h).trans_le (Nat.le_succ _)
    · rw [List.mem_singleton.mp h, hid]
      exact Nat.lt_succ_self _
  · intro x hx hP
    rw [happ] at hx
    rcases List.mem_append.mp hx with h | h
    · exact hWFo.2.2 x h hP
    · have hxo := List.mem_singleton.mp h
      subst hxo
      exact hpend hP
  · rw [happ, pending_margin_sum_append]

/-- `create_limit_order` preserves the margin accounting for a validated
feed and a nonnegative limit price. -/
theorem Inv_create_limit_order {feed : PriceFeed} {st : EngineState}
    {symbol side₀ : String} {q p : ℚ} {lev : Nat} {sl tp : Option ℚ}
    {ro : Bool} {now : ℕ}
    (hInv : Inv st) (hfeed : ValidFeed feed) (hp : 0 ≤ p) :
    Inv (create_limit_order feed st symbol side₀ q p lev sl tp ro now).1 := by
  obtain ⟨hWFo, hWFp, hsum⟩ := hInv
  by_cases hside : ¬(py_upper side₀ = "LONG" ∨ py_upper side₀ = "SHORT")
  · simp only [create_limit_order, if_pos hside]
    exact ⟨hWFo, hWFp, hsum⟩
  · simp only [create_limit_order, EngineState.fresh, if_neg hside]
    by_cases hsym : ¬(feed.is_valid_symbol symbol = true)
    · rw [if_pos hsym]
      exact ⟨hWFo, hWFp, hsum⟩
    · rw [if_neg hsym]
      rcases hvq : feed.validate_quantity symbol q with ⟨b1, msg1⟩
      have hqp : b1 = true → 0 < q := fun hb =>
        hfeed symbol q (by rw [hvq, hb])
      cases b1 with
      | false => exact ⟨hWFo, hWFp, hsum⟩
      | true =>
        rcases hvl : feed.validate_leverage symbol lev with ⟨b2, msg2⟩
        cases b2 with
        | false => exact ⟨hWFo, hWFp, hsum⟩
        | true =>
          by_cases hlev : lev = 0
          · rw [if_pos hlev]
            exact ⟨hWFo, hWFp, hsum⟩
          · rw [if_neg hlev]
            by_cases hin : st.wallet.available <
                q * p / (lev : ℚ) + q * p * st.fee_rate
            · rw [if_pos hin]
              exact ⟨hWFo, hWFp, hsum⟩
            · rw [if_neg hin]
              cases hlock : st.wallet.lock_margin (q * p / (lev : ℚ)) with
              | error e =>
                exact ⟨WFov_mono hWFo (Nat.le_succ _),
                  WFpv_mono hWFp (Nat.le_succ _), hsum⟩
              | ok w =>
                have hw : w.locked_margin = st.wallet.locked_margin +
                    q * p / (lev : ℚ) := by
                  unfold PaperWallet.lock_margin at hlock
                  split at hlock
                  · exact absurd hlock (by simp)
                  · injection hlock with h
                    rw [← h]
                have hfresh : ∀ x ∈ st.orders, x.order_id ≠
                    (limit_new_order st symbol (py_upper side₀) q p lev sl tp
                      ro now).order_id := by
                  intro x hx h
                  exact absurd (h ▸ hWFo.2.1 x hx) (lt_irrefl _)
                have hW := WFov_store_pending hWFo
                  (limit_new_order st symbol (py_upper side₀) q p lev sl tp
                    ro now)
                  hfresh rfl
                  (fun _ => ⟨rfl, hqp rfl, Nat.one_le_iff_ne_zero.mpr hlev,
                    div_nonneg (mul_nonneg (hqp rfl).le hp)
                      (Nat.cast_nonneg lev),
                    ⟨p, rfl, rfl⟩⟩)
                have hco : ordContrib (limit_new_order st symbol
                    (py_upper side₀) q p lev sl tp ro now)
                    = q * p / (lev : ℚ) := by
                  unfold ordContrib limit_new_order
                  rw [if_pos ⟨rfl, rfl⟩]
                refine ⟨hW.1, WFpv_mono hWFp (Nat.le_succ _), ?_⟩
                show w.locked_margin = open_margin_sum st.positions +
                  pending_margin_sum (storeOrder st.orders
                    (limit_new_order st symbol (py_upper side₀) q p lev sl tp
                      ro now))
                rw [hw, hW.2, hco, hsum]
                ring

/-- The reduced position left by the partial branch of `close_position`. -/
def partial_closed_position (position : PaperPosition) (q price : ℚ) :
    PaperPosition :=
  { position with
      quantity := position.quantity - q,
      margin := position.margin * (1 - q / position.quantity),
      realized_pnl := (position.realized_pnl +
        position.calculate_unrealized_pnl price * (q / position.quantity)) }

/-- The released-margin algebra of the partial-close branch: the engine's
`margin * ratio / (1 - ratio)` on the already-reduced margin recovers the
proportional share of the original margin. -/
theorem partial_release_eq (M r : ℚ) (h : 1 - r ≠ 0) :
    M * (1 - r) * r / (1 - r) = M * r := by
  field_simp
  ring

/-- `close_position` (full or partial) preserves the margin accounting. -/
theorem Inv_close_position {feed : PriceFeed} {st : EngineState} {pid : Nat}
    {qty : Option ℚ} {now : ℕ} (hInv : Inv st) :
    Inv (close_position feed st pid qty now).1 := by
  obtain ⟨hg, hmem⟩ := @Inv_get_position feed st pid hInv
  rcases hget : get_position feed st pid with ⟨st', res⟩
  rw [hget] at hg hmem
  simp only [close_position, hget]
  cases res with
  | error e => exact hg
  | ok position =>
    simp only []
    have hpm : position ∈ st'.positions := hmem position rfl
    by_cases hno : position.status ≠ .OPEN
    · rw [if_pos hno]
      exact hg
    · rw [if_neg hno]
      push_neg at hno
      obtain ⟨hWFo', hWFp', hsum'⟩ := hg
      rcases hcp : feed.get_price position.symbol with e | price
      · simp only [hcp]
        exact ⟨hWFo', hWFp', hsum'⟩
      · simp only [hcp]
        have hfull : ∀ st₀ : EngineState, Inv st₀ →
            position ∈ st₀.positions →
            Inv (match close_position_internal st₀ position price
                CloseReason.MANUAL now with
              | (st, Except.error e) => (st, Except.error e)
              | (st, Except.ok _) =>
                match findPosition st.positions pid with
                | some p => (st, Except.ok p)
                | none =>
                  (st, Except.error (PaperError.positionNotFound pid))).1 := by
          intro st₀ h₀ hm₀
          have hI := Inv_close_position_internal price .MANUAL now h₀ hm₀ hno
          rcases hci : close_position_internal st₀ position price .MANUAL
            now with ⟨st₁, r₁⟩
          rw [hci] at hI
          cases r₁ with
          | error e => exact hI
          | ok v =>
            simp only []
            cases findPosition st₁.positions pid with
            | some p => exact hI
            | none => exact hI
        cases qty with
        | none => exact hfull st' ⟨hWFo', hWFp', hsum'⟩ hpm
        | some q =>
          simp only []
          by_cases hge : q ≥ position.quantity
          · rw [if_pos hge]
            exact hfull st' ⟨hWFo', hWFp', hsum'⟩ hpm
          · rw [if_neg hge]
            push_neg at hge
            have hQpos : 0 < position.quantity := hWFp'.2.2 position hpm hno
            rw [partial_close_spec position q price now hge hQpos.ne']
            simp only []
            have hQ' : position.quantity - q + q = position.quantity := by
              ring
            rw [hQ', if_neg hQpos.ne']
            have hrne : q / position.quantity ≠ 1 := by
              intro h
              rw [div_eq_one_iff_eq hQpos.ne'] at h
              exact hge.ne h
            rw [if_neg hrne,
              partial_release_eq position.margin (q / position.quantity)
                (sub_ne_zero.mpr (Ne.symm hrne))]
            have hcP : posContrib (partial_closed_position position q price)
                = position.margin * (1 - q / position.quantity) := by
              simp only [posContrib, partial_closed_position]
              rw [if_pos hno]
            have hce : posContrib position = position.margin := by
              unfold posContrib
              rw [if_pos hno]
            have hopenEq : open_margin_sum (storePosition st'.positions
                (partial_closed_position position q price))
                = open_margin_sum st'.positions -
                  position.margin * (q / position.quantity) := by
              rw [show open_margin_sum (storePosition st'.positions
                  (partial_closed_position position q price))
                  = ((storeBy (fun x : PaperPosition => x.position_id)
                      st'.positions
                      (partial_closed_position position q price)).map
                      posContrib).sum from rfl,
                sum_map_storeBy (fun x : PaperPosition => x.position_id)
                  posContrib st'.positions
                  (partial_closed_position position q price) position
                  hWFp'.1 hpm rfl,
                hcP, hce]
              rw [show (st'.positions.map posContrib).sum
                  = open_margin_sum st'.positions from rfl]
              ring
            have hWv : WFpv (storePosition st'.positions
                (partial_closed_position position q price)) st'.next_id := by
              refine ⟨?_, ?_, ?_⟩
              · rw [show storePosition st'.positions
                    (partial_closed_position position q price)
                    = storeBy (fun x : PaperPosition => x.position_id)
                      st'.positions
                      (partial_closed_position position q price) from rfl,
                  storeBy_map_key (fun x : PaperPosition => x.position_id)
                    st'.positions (partial_closed_position position q price)
                    position hpm rfl]
                exact hWFp'.1
              · intro x hx
                rcases mem_storeBy (fun y : PaperPosition => y.position_id)
                    st'.positions _ x hx with h | h
                · exact hWFp'.2.1 x h
                · rw [h]
                  exact hWFp'.2.1 position hpm
              · intro x hx hxo
                rcases mem_storeBy (fun y : PaperPosition => y.position_id)
                    st'.positions _ x hx with h | h
                · exact hWFp'.2.2 x h hxo
                · rw [h]
                  show (0 : ℚ) < position.quantity - q
                  linarith
            have hsml : st'.wallet.locked_margin -
                position.margin * (q / position.quantity)
                = open_margin_sum (storePosition st'.positions
                    (partial_closed_position position q price)) +
                  pending_margin_sum st'.orders := by
              rw [hopenEq, hsum']
              ring
            by_cases hqe : q * position.entry_price = 0
            · rw [if_pos hqe]
              exact ⟨hWFo', hWv, hsml⟩
            · rw [if_neg hqe]
              exact ⟨WFov_mono hWFo' (Nat.le_succ _),
                WFpv_mono hWv (Nat.le_succ _), hsml⟩

/-- The netting flag of the inner limit-order scan is monotone: once set it
stays set. -/
theorem check_orders_netted_mono (ids : List Nat) :
    ∀ (st : EngineState) (price : ℚ) (remaining : List Nat)
      (filled : List PaperOrder) (now : ℕ),
    (check_orders_for_symbol st price ids remaining filled true now).netted
      = true := by
  induction ids with
  | nil =>
    intro st price remaining filled now
    rfl
  | cons oid rest ih =>
    intro st price remaining filled now
    simp only [check_orders_for_symbol]
    split
    · exact ih _ _ _ _ _
    · split
      · exact ih _ _ _ _ _
      · split
        · exact ih _ _ _ _ _
        · split
          · exact ih _ _ _ _ _
          · split
            · split
              · simp
              · rw [Bool.true_or]
                exact ih _ _ _ _ _
            · exact ih _ _ _ _ _

/-- The inner scan of `check_limit_orders` preserves the margin accounting
when no fill nets against an opposite position. -/
theorem Inv_check_orders_for_symbol (ids : List Nat) :
    ∀ (st : EngineState) (price : ℚ) (remaining : List Nat)
      (filled : List PaperOrder) (now : ℕ),
    Inv st →
    (check_orders_for_symbol st price ids remaining filled false now).netted
      = false →
    Inv (check_orders_for_symbol st price ids remaining filled false
      now).st := by
  induction ids with
  | nil =>
    intro st price remaining filled now hInv _
    exact hInv
  | cons oid rest ih =>
    intro st price remaining filled now hInv hfin
    simp only [check_orders_for_symbol] at hfin ⊢
    rcases hf : findOrder st.orders oid with _ | order
    · simp only [hf] at hfin ⊢
      exact ih st price remaining filled now hInv hfin
    · simp only [hf] at hfin ⊢
      by_cases hst : order.status ≠ .PENDING
      · rw [if_pos hst] at hfin ⊢
        exact ih st price remaining filled now hInv hfin
      · rw [if_neg hst] at hfin ⊢
        push_neg at hst
        obtain ⟨hlim, hqp, hlev1, hmnn, pl, hpl, hmeq⟩ :=
          hInv.1.2.2 order (findOrder_spec hf).1 hst
        by_cases hexp : (match order.expires_at with
            | some exp => decide (now > exp)
            | none => false) = true
        · rw [if_pos hexp] at hfin ⊢
          refine ih _ price _ filled now ?_ hfin
          obtain ⟨hWFo, hWFp, hsum⟩ := hInv
          obtain ⟨hWFo', hpend'⟩ := store_order_replace hWFo
            { order with status := .EXPIRED } order (findOrder_spec hf).1 rfl
            (by simp)
          have hcord : ordContrib order = order.margin_used := by
            unfold ordContrib
            rw [if_pos ⟨hst, hlim⟩]
          refine ⟨hWFo', hWFp, ?_⟩
          show st.wallet.locked_margin - order.margin_used = _
          rw [hpend', hcord, hsum]
          ring
        · rw [if_neg hexp] at hfin ⊢
          rcases hpr : order.price with _ | p
          · simp only [hpr] at hfin ⊢
            exact ih st price remaining filled now hInv hfin
          · simp only [hpr] at hfin ⊢
            by_cases hsf : limit_should_fill order.side p price = true
            · rw [if_pos hsf] at hfin ⊢
              rcases hex : execute_order st order p now with ⟨st'', res, n⟩
              rw [hex] at hfin
              have hImain : n = false → Inv st'' := by
                intro hn
                have hI := Inv_execute_order hInv hqp
                  (.inr ⟨(findOrder_spec hf).1, hst, hpr⟩)
                  (by rw [hex, hn])
                rw [hex] at hI
                exact hI
              cases res with
              | error e =>
                simp only [] at hfin ⊢
                rw [Bool.false_or] at hfin
                exact hImain hfin
              | ok o =>
                simp only [] at hfin ⊢
                cases n with
                | true =>
                  exfalso
                  have hmono := check_orders_netted_mono rest st'' price
                    (remaining.erase oid) (filled ++ [o]) now
                  rw [Bool.false_or] at hfin
                  rw [hfin] at hmono
                  exact absurd hmono (by decide)
                | false =>
                  rw [Bool.false_or] at hfin ⊢
                  exact ih st'' price (remaining.erase oid) (filled ++ [o])
                    now (hImain rfl) hfin
            · rw [if_neg hsf] at hfin ⊢
              exact ih st price remaining filled now hInv hfin

/-- The netting flag of the outer limit-order loop is monotone. -/
theorem check_go_netted_mono (feed : PriceFeed)
    (entries : List (String × List Nat)) :
    ∀ (st : EngineState) (acc : List (String × List Nat))
      (filled : List PaperOrder) (now : ℕ),
    (check_limit_orders_go feed st entries acc filled true now).2.2.1
      = true := by
  induction entries with
  | nil =>
    intro st acc filled now
    rfl
  | cons entry rest ih =>
    intro st acc filled now
    rcases entry with ⟨symbol, ids⟩
    simp only [check_limit_orders_go]
    split
    · exact ih _ _ _ _
    · split
      · exact ih _ _ _ _
      · split
        · simp
        · rw [Bool.true_or]
          exact ih _ _ _ _

/-- The outer loop of `check_limit_orders` preserves the margin accounting
when no netting occurs. -/
theorem Inv_check_limit_orders_go (feed : PriceFeed)
    (entries : List (String × List Nat)) :
    ∀ (st : EngineState) (acc : List (String × List Nat))
      (filled : List PaperOrder) (now : ℕ),
    Inv st →
    (check_limit_orders_go feed st entries acc filled false now).2.2.1
      = false →
    Inv (check_limit_orders_go feed st entries acc filled false now).1 := by
  induction entries with
  | nil =>
    intro st acc filled now hInv _
    exact ⟨hInv.1, hInv.2.1, hInv.2.2⟩
  | cons entry rest ih =>
    intro st acc filled now hInv hfin
    rcases entry with ⟨symbol, ids⟩
    simp only [check_limit_orders_go] at hfin ⊢
    by_cases hemp : ids.isEmpty = true
    · rw [if_pos hemp] at hfin ⊢
      exact ih st (acc ++ [(symbol, ids)]) filled now hInv hfin
    · rw [if_neg hemp] at hfin ⊢
      rcases hgp : feed.get_price symbol with e | cp
      · simp only [hgp] at hfin ⊢
        exact ih st (acc ++ [(symbol, ids)]) filled now hInv hfin
      · simp only [hgp] at hfin ⊢
        rcases hscan : check_orders_for_symbol st cp ids ids [] false now
          with ⟨st₂, rem, newly, n, err⟩
        rw [hscan] at hfin
        have hImain : n = false → Inv st₂ := by
          intro hn
          have hI := Inv_check_orders_for_symbol ids st cp ids [] now hInv
            (by rw [hscan]; exact hn)
          rw [hscan] at hI
          exact hI
        cases err with
        | some e =>
          simp only [] at hfin ⊢
          rw [Bool.false_or] at hfin
          have hI := hImain hfin
          exact ⟨hI.1, hI.2.1, hI.2.2⟩
        | none =>
          simp only [] at hfin ⊢
          cases n with
          | true =>
            exfalso
            have hmono := check_go_netted_mono feed rest st₂
              (acc ++ [(symbol, rem)]) (filled ++ newly) now
            rw [Bool.false_or] at hfin
            rw [hfin] at hmono
            exact absurd hmono (by decide)
          | false =>
            rw [Bool.false_or] at hfin ⊢
            exact ih st₂ (acc ++ [(symbol, rem)]) (filled ++ newly) now
              (hImain rfl) hfin

/-- `check_limit_orders` preserves the margin accounting when no netting
occurs. -/
theorem Inv_check_limit_orders {feed : PriceFeed} {st : EngineState}
    {now : ℕ} (hInv : Inv st)
    (hnet : (check_limit_orders feed st now).2.2.1 = false) :
    Inv (check_limit_orders feed st now).1 :=
  Inv_check_limit_orders_go feed st.pending_orders st [] [] now hInv hnet

/-- Admissible inputs for one engine operation: the feed's quantity
validator only passes positive quantities (as the bundled feeds do), and a
limit order carries a nonnegative limit price (the engine never validates
the limit price, so a negative one would corrupt the margin accounting). -/
def ValidOp : PriceFeed × EngineOp → Prop
  | (feed, .limit _ _ _ price _ _ _ _ _) => ValidFeed feed ∧ 0 ≤ price
  | (feed, .market _ _ _ _ _ _ _ _) => ValidFeed feed
  | (_, .checkLimits _) => True
  | (_, .cancel _ _) => True
  | (_, .closePos _ _ _) => True

/-- One engine operation preserves the margin accounting when it does not
net against an opposite position. -/
theorem Inv_step {feed : PriceFeed} {st : EngineState} {op : EngineOp}
    (hInv : Inv st) (hop : ValidOp (feed, op))
    (hnet : (step feed st op).2 = false) :
    Inv (step feed st op).1 := by
  cases op with
  | market symbol side q lev sl tp ro now =>
    simp only [step] at hnet ⊢
    rcases hc : create_market_order feed st symbol side q lev sl tp ro now
      with ⟨st', res, n⟩
    rw [hc] at hnet
    have hI := Inv_create_market_order hInv hop (by rw [hc]; exact hnet)
    rw [hc] at hI
    exact hI
  | limit symbol side q p lev sl tp ro now =>
    exact Inv_create_limit_order hInv hop.1 hop.2
  | checkLimits now =>
    simp only [step] at hnet ⊢
    rcases hc : check_limit_orders feed st now with ⟨st', fills, n, err⟩
    rw [hc] at hnet
    have hI := Inv_check_limit_orders hInv (by rw [hc]; exact hnet)
    rw [hc] at hI
    exact hI
  | cancel oid now =>
    exact Inv_cancel_order hInv
  | closePos pid q now =>
    exact Inv_close_position hInv

/-- Running a sequence of admissible operations in which no netting occurs
preserves the margin accounting. -/
theorem Inv_run (ops : List (PriceFeed × EngineOp)) :
    ∀ st : EngineState, Inv st → (∀ op ∈ ops, ValidOp op) →
    (run st ops).2 = false → Inv (run st ops).1 := by
  induction ops with
  | nil =>
    intro st h _ _
    exact h
  | cons a rest ih =>
    intro st hInv hops hflag
    simp only [run] at hflag ⊢
    rw [Bool.or_eq_false_iff] at hflag
    exact ih (step a.1 st a.2).1
      (Inv_step hInv (by
        have := hops a (List.mem_cons_self a rest)
        rcases a with ⟨feed, op⟩
        exact this) hflag.1)
      (fun op hop => hops op (List.mem_cons_of_mem a hop))
      hflag.2

/-- A freshly constructed engine satisfies the margin accounting. -/
theorem Inv_init (b : ℚ) (fr : Option ℚ) : Inv (init_engine b fr) := by
  refine ⟨⟨List.nodup_nil, ?_, ?_⟩, ⟨List.nodup_nil, ?_, ?_⟩, ?_⟩
  · intro o ho
    cases ho
  · intro o ho
    cases ho
  · intro p hp
    cases hp
  · intro p hp
    cases hp
  · show (0 : ℚ) = open_margin_sum [] + pending_margin_sum []
    norm_num [open_margin_sum, pending_margin_sum]

/-! ### C2: the locked-margin accounting invariant -/

/-- The engine state after opening LONG 2 units of "X" at price 100 with
10× leverage from a 1000 USDT wallet. -/
def C2_mid : EngineState :=
  { fee_rate := 1/2000,
    wallet := { balance := 9999/10, available := 9799/10, locked_margin := 20,
                unrealized_pnl := 0, realized_pnl := 0, total_fees_paid := 1/10 },
    orders := [{ order_id := 0, symbol := "X", side := "LONG",
                 order_type := "MARKET", quantity := 2, leverage := 10,
                 status := .FILLED, price := none, filled_price := some 100,
                 stoploss_price := none, takeprofit_price := none,
                 reduce_only := false, fee_paid := 1/10, margin_used := 20,
                 created_at := 0, filled_at := some 0, cancelled_at := none,
                 expires_at := none, position_id := some 1 }],
    positions := [{ position_id := 1, symbol := "X", side := "LONG",
                    status := .OPEN, quantity := 2, entry_price := 100,
                    leverage := 10, margin := 20, unrealized_pnl := 0,
                    realized_pnl := 0, stoploss_price := none,
                    takeprofit_price := none, liquidation_price := some 91,
                    opened_at := 0, closed_at := none, close_reason := none,
                    exit_price := none }],
    trade_history := [{ trade_id := 2, order_id := some 0, position_id := some 1,
                        symbol := "X", side := "LONG", action := "OPEN",
                        quantity := 2, price := 100, notional := 200, fee := 1/10,
                        pnl := none, pnl_percent := none, executed_at := 0 }],
    pending_orders := [], next_id := 3 }

/-- C2 counterexample: the locked-margin accounting is *not* preserved by
every operation sequence.  Open LONG 2 @ 100 (locks 20), then a SHORT 1
market order nets against it: `_net_positions` partially closes the
position (its margin drops to 10) and releases only the SHORT order's own
margin 10 — the 10 the SHORT path locked minutes earlier in
`_execute_order`.  Afterwards `locked_margin = 20` while the sole open
position carries `margin = 10` and no order is pending. -/
theorem C2_counterexample :
    (run (init_engine 1000 none)
        [(const_feed 100, .market "X" "LONG" 2 10 none none false 0),
         (const_feed 100, .market "X" "SHORT" 1 10 none none false 1)]).1.wallet.locked_margin ≠
      open_margin_sum (run (init_engine 1000 none)
        [(const_feed 100, .market "X" "LONG" 2 10 none none false 0),
         (const_feed 100, .market "X" "SHORT" 1 10 none none false 1)]).1.positions +
      pending_margin_sum (run (init_engine 1000 none)
        [(const_feed 100, .market "X" "LONG" 2 10 none none false 0),
         (const_feed 100, .market "X" "SHORT" 1 10 none none false 1)]).1.orders := by
  have h1 : step (const_feed 100) (init_engine 1000 none)
      (.market "X" "LONG" 2 10 none none false 0) = (C2_mid, false) := by
    norm_num [step, create_market_order, const_feed, py_upper_LONG, execute_order,
      finish_execute_order, apply_risk_prices, handle_position_for_order, EngineState.find_position,
      create_position, storePosition, storeOrder, storeBy, findPosition, findOrder,
      init_engine, truthyQ, EngineState.fresh, PaperWallet.lock_margin,
      PaperWallet.deduct_fee, PaperPosition.calculate_liquidation_price,
      PaperOrder.fill, opposite_side, C2_mid]
  have hs1 : ("LONG" = "SHORT") = False := by simp
  have hs2 : ("SHORT" = "LONG") = False := by simp
  have hs3 : (PaperOrderStatus.FILLED = PaperOrderStatus.PENDING) = False := by
    simp
  have h2a : (step (const_feed 100) C2_mid
      (.market "X" "SHORT" 1 10 none none false 1)).1.wallet.locked_margin = 20 := by
    norm_num [hs1, hs2, step, create_market_order, const_feed, py_upper_SHORT, execute_order,
      finish_execute_order, apply_risk_prices, handle_position_for_order, EngineState.find_position,
      net_positions, PaperPosition.partial_close,
      PaperPosition.calculate_unrealized_pnl, storePosition, storeOrder,
      storeBy, findPosition, findOrder, truthyQ, EngineState.fresh,
      PaperWallet.lock_margin, PaperWallet.deduct_fee,
      PaperWallet.release_margin, PaperPosition.calculate_liquidation_price,
      PaperOrder.fill, opposite_side, C2_mid]
  have h2b : open_margin_sum (step (const_feed 100) C2_mid
      (.market "X" "SHORT" 1 10 none none false 1)).1.positions = 10 := by
    norm_num [hs1, hs2, step, create_market_order, const_feed, py_upper_SHORT, execute_order,
      finish_execute_order, apply_risk_prices, handle_position_for_order, EngineState.find_position,
      net_positions, PaperPosition.partial_close,
      PaperPosition.calculate_unrealized_pnl, storePosition, storeOrder,
      storeBy, findPosition, findOrder, truthyQ, EngineState.fresh,
      PaperWallet.lock_margin, PaperWallet.deduct_fee,
      PaperWallet.release_margin, PaperPosition.calculate_liquidation_price,
      PaperOrder.fill, opposite_side, C2_mid, open_margin_sum, posContrib]
  have h2c : pending_margin_sum (step (const_feed 100) C2_mid
      (.market "X" "SHORT" 1 10 none none false 1)).1.orders = 0 := by
    norm_num [hs1, hs2, hs3, step, create_market_order, const_feed, py_upper_SHORT, execute_order,
      finish_execute_order, apply_risk_prices, handle_position_for_order, EngineState.find_position,
      net_positions, PaperPosition.partial_close,
      PaperPosition.calculate_unrealized_pnl, storePosition, storeOrder,
      storeBy, findPosition, findOrder, truthyQ, EngineState.fresh,
      PaperWallet.lock_margin, PaperWallet.deduct_fee,
      PaperWallet.release_margin, PaperPosition.calculate_liquidation_price,
      PaperOrder.fill, opposite_side, C2_mid, pending_margin_sum, ordContrib]
  simp only [run_fst_cons, run_fst_nil, h1, h2a, h2b, h2c]
  norm_num

/-- C2 (corrected): for every sequence of admissible engine operations
(feeds whose quantity validator only passes positive quantities,
nonnegative limit prices) in which the netting step `_net_positions` never
runs, `wallet.locked_margin` equals the sum of the `margin` of all OPEN
positions plus the `margin_used` of all PENDING limit orders.  The netting
step itself breaks the accounting (see the counterexample). -/
theorem C2_locked_margin_invariant (init_balance : ℚ) (fee_rate : Option ℚ)
    (ops : List (PriceFeed × EngineOp))
    (hops : ∀ op ∈ ops, ValidOp op)
    (hnonet : (run (init_engine init_balance fee_rate) ops).2 = false) :
    (run (init_engine init_balance fee_rate) ops).1.wallet.locked_margin =
      open_margin_sum
          (run (init_engine init_balance fee_rate) ops).1.positions +
        pending_margin_sum
          (run (init_engine init_balance fee_rate) ops).1.orders :=
  (Inv_run ops (init_engine init_balance fee_rate)
    (Inv_init init_balance fee_rate) hops hnonet).2.2

/-- A feed mirroring `MockPriceFeed`: a fixed price for every symbol and a
quantity validator that rejects non-positive quantities. -/
def checked_feed (price : ℚ) : PriceFeed :=
  { get_price := fun _ => .ok price,
    is_valid_symbol := fun _ => true,
    validate_quantity := fun _ q => (if 0 < q then true else false, ""),
    validate_leverage := fun _ _ => (true, "") }

/-- The operation list used to witness the corrected C2 invariant. -/
def C2_wops : List (PriceFeed × EngineOp) :=
  [(checked_feed 100, .market "X" "LONG" 1 10 none none false 0),
   (checked_feed 100, .limit "X" "LONG" 1 90 10 none none false 1)]

theorem C2_witness :
    (∀ op ∈ C2_wops, ValidOp op) ∧
    (run (init_engine 1000 none) C2_wops).2 = false ∧
    (run (init_engine 1000 none) C2_wops).1.wallet.locked_margin =
      open_margin_sum (run (init_engine 1000 none) C2_wops).1.positions +
        pending_margin_sum (run (init_engine 1000 none) C2_wops).1.orders := by
  have hvf : ValidFeed (checked_feed 100) := by
    intro s q h
    simp only [checked_feed] at h
    by_contra hc
    rw [if_neg hc] at h
    exact Bool.noConfusion h
  have hops : ∀ op ∈ C2_wops, ValidOp op := by
    intro op hop
    simp only [C2_wops, List.mem_cons, List.mem_singleton] at hop
    rcases hop with h | h | h
    · subst h
      exact hvf
    · subst h
      exact ⟨hvf, by norm_num⟩
    · cases h
  have hflag : (run (init_engine 1000 none) C2_wops).2 = false := by
    norm_num [C2_wops, run, step, create_market_order, create_limit_order,
      checked_feed, py_upper_LONG, execute_order, finish_execute_order,
      apply_risk_prices, handle_position_for_order, EngineState.find_position,
      create_position, storePosition, storeOrder, storeBy, findPosition,
      findOrder, init_engine, truthyQ, EngineState.fresh, addPending,
      PaperWallet.lock_margin, PaperWallet.deduct_fee,
      PaperPosition.calculate_liquidation_price, PaperOrder.fill,
      opposite_side]
  exact ⟨hops, hflag, C2_locked_margin_invariant 1000 none C2_wops hops hflag⟩

end Mudrex
